import Mathlib

set_option maxRecDepth 8192

/-!
Verification of the ISO8583 protocol engine of the Bank-Communication repository.

Shallow embedding conventions:
* Rust `String` values are modelled by their UTF-8 byte sequences (`List Nat`,
  every byte below 256); string equality coincides with byte-sequence equality.
* Byte buffers (`&[u8]`, `Vec<u8>`) are `List Nat`.
* Machine integers are `Nat` with explicit `% 2 ^ w` where wrap-around matters.
* Fallible Rust functions return `Except`; Rust code that can panic (slice
  indexing out of range) is embedded with an explicit `panic` constructor.
High-level components (messages, transactions, the STAN generator) use Lean
`String` directly, since their claims only compare whole strings.
-/

namespace BankComm

/-- A Rust `String`, as its UTF-8 bytes. -/
abbrev RStr := List Nat

/-! ## Hex encoding (the `hex` crate: `hex::encode_upper`, `hex::decode`) -/

/-- Upper-case hex digit for a nibble (`format!("{:X}")` on one nibble). -/
def hexDigitUpper (n : Nat) : Nat := if n < 10 then 48 + n else 55 + n

/-- `format!("{:02X}", b)` for a `u8`: two upper-case hex digits. -/
def hexEncodeByte (b : Nat) : List Nat :=
  [hexDigitUpper (b % 256 / 16), hexDigitUpper (b % 16)]

/-- `hex::encode_upper` on a byte buffer. -/
def hexEncodeUpper (bs : List Nat) : RStr := (bs.map hexEncodeByte).flatten

/-- Errors of `hex::decode` (its two error cases; the carried positions are
dropped since the program only converts them to strings). -/
inductive HexError where
  | oddLength
  | invalidChar
  deriving DecidableEq, Repr

/-- Value of one hex digit character, both cases accepted, as in `hex::decode`. -/
def hexDigitVal (c : Nat) : Option Nat :=
  if 48 ≤ c ∧ c ≤ 57 then some (c - 48)
  else if 65 ≤ c ∧ c ≤ 70 then some (c - 55)
  else if 97 ≤ c ∧ c ≤ 102 then some (c - 87)
  else none

/-- Pairwise hex decoding; `none` on an invalid digit or a dangling character. -/
def hexDecodePairs : List Nat → Option (List Nat)
  | [] => some []
  | [_] => none
  | c1 :: c2 :: rest =>
    match hexDigitVal c1, hexDigitVal c2, hexDecodePairs rest with
    | some h, some l, some r => some ((16 * h + l) :: r)
    | _, _, _ => none

/-- `hex::decode`: odd length is reported first, then invalid characters. -/
def hexDecode (s : RStr) : Except HexError (List Nat) :=
  if s.length % 2 ≠ 0 then .error .oddLength
  else
    match hexDecodePairs s with
    | some bs => .ok bs
    | none => .error .invalidChar

/-! ## `String::from_utf8_lossy` and `str::parse::<usize>` -/

/-- Byte-wise model of `String::from_utf8_lossy`: ASCII bytes map to
themselves, any non-ASCII byte to the UTF-8 bytes of U+FFFD.  (Rust groups
invalid multi-byte sequences differently, but every use in this development
either receives pure ASCII, where the two agree, or only feeds the result to
`parse::<usize>`, which fails on both models since a decoded multi-byte
character is never an ASCII digit.) -/
def fromUtf8Lossy (bs : List Nat) : RStr :=
  (bs.map (fun b => if b % 256 < 128 then [b % 256] else [0xEF, 0xBF, 0xBD])).flatten

/-- `str::parse::<usize>`: an optional leading `+` (byte 43) is stripped,
then one or more ASCII digits are required; overflow above `usize::MAX`
(64-bit) fails. -/
def parseUsize (s : RStr) : Option Nat :=
  let digits := if s.head? = some 43 then s.tail else s
  if digits.isEmpty then none
  else if digits.all (fun c => 48 ≤ c && c ≤ 57) then
    let v := digits.foldl (fun a c => a * 10 + (c - 48)) 0
    if v < 2 ^ 64 then some v else none
  else none

/-! ## Decimal rendering (`format!("{}")`, `format!("{:02}")`, ...) -/

/-- Decimal digit bytes of `n`, most significant first (accumulator form). -/
def natDecimalAux : Nat → List Nat → List Nat
  | 0, acc => acc
  | n + 1, acc => natDecimalAux ((n + 1) / 10) ((48 + (n + 1) % 10) :: acc)
  decreasing_by exact Nat.div_lt_self (Nat.succ_pos n) (by omega)

/-- Decimal rendering of a `usize` as ASCII bytes (`format!("{}", n)`). -/
def natDecimal (n : Nat) : RStr := if n = 0 then [48] else natDecimalAux n []

/-- Left padding with a byte to a width (`format!("{:0>width$}")` and the
zero-padding numeric formats; width counted in bytes, which matches Rust's
character count on the ASCII data used throughout this program). -/
def leftPad (c w : Nat) (s : List Nat) : List Nat :=
  List.replicate (w - s.length) c ++ s

/-- Right padding with a byte to a width (`format!("{:<width$}")`). -/
def rightPad (c w : Nat) (s : List Nat) : List Nat :=
  s ++ List.replicate (w - s.length) c

/-! ## Field codec (`app/service/iso8583_parser.rs`) -/

/-- `FieldFormat` from `iso8583_parser.rs`. -/
inductive FieldFormat where
  | fixedNumeric (n : Nat)
  | fixedAlpha (n : Nat)
  | llvar (max : Nat)
  | lllvar (max : Nat)
  | binary (n : Nat)
  deriving DecidableEq, Repr

/-- `ParseError` from `iso8583_parser.rs` (payload strings dropped). -/
inductive ParseError where
  | invalidLength
  | invalidMti
  | invalidBitmap
  | invalidField
  | missingField
  | hexError
  deriving DecidableEq, Repr

/-- Result of running a fallible Rust function that can also panic:
`panic` models a Rust panic (an out-of-range slice index), `err` a returned
`Err`, `ok` a returned `Ok`. -/
inductive RResult (α : Type) where
  | panic
  | err (e : ParseError)
  | ok (a : α)
  deriving DecidableEq, Repr

/-- The default field-format table built by `init_default_formats`. -/
def fieldFormats (de : Nat) : Option FieldFormat :=
  match de with
  | 2 => some (.llvar 19)
  | 3 => some (.fixedNumeric 6)
  | 4 => some (.fixedNumeric 12)
  | 7 => some (.fixedNumeric 10)
  | 11 => some (.fixedNumeric 6)
  | 12 => some (.fixedNumeric 6)
  | 13 => some (.fixedNumeric 4)
  | 14 => some (.fixedNumeric 4)
  | 18 => some (.fixedNumeric 4)
  | 22 => some (.fixedNumeric 3)
  | 23 => some (.fixedNumeric 3)
  | 25 => some (.fixedNumeric 2)
  | 32 => some (.llvar 11)
  | 35 => some (.llvar 37)
  | 37 => some (.fixedAlpha 12)
  | 38 => some (.fixedAlpha 6)
  | 39 => some (.fixedAlpha 2)
  | 41 => some (.fixedAlpha 8)
  | 42 => some (.fixedAlpha 15)
  | 43 => some (.fixedAlpha 40)
  | 49 => some (.fixedNumeric 3)
  | 52 => some (.binary 8)
  | 54 => some (.lllvar 120)
  | 55 => some (.lllvar 999)
  | 60 => some (.lllvar 999)
  | 61 => some (.lllvar 999)
  | 62 => some (.lllvar 999)
  | 63 => some (.lllvar 999)
  | 64 => some (.binary 8)
  | 70 => some (.fixedNumeric 3)
  | 90 => some (.fixedNumeric 42)
  | 95 => some (.fixedAlpha 42)
  | 102 => some (.llvar 28)
  | 103 => some (.llvar 28)
  | 123 => some (.lllvar 999)
  | 127 => some (.lllvar 999)
  | 128 => some (.binary 8)
  | _ => none

/-- `Iso8583Parser::parse_field` for a known format, on the remaining input
slice.  Returns the decoded value string and the number of bytes consumed.
The `Llvar` arm mirrors the source exactly: it only guards `data.len() < 1`
before slicing `&data[..2]`, so a one-byte slice is a panic, not an error. -/
def parseFieldFmt (fmt : FieldFormat) (data : List Nat) : RResult (RStr × Nat) :=
  match fmt with
  | .fixedNumeric len =>
    let bcdLen := (len + 1) / 2
    if data.length < bcdLen then .err .invalidField
    else
      let value := hexEncodeUpper (data.take bcdLen)
      .ok (value.take (min len value.length), bcdLen)
  | .fixedAlpha len =>
    if data.length < len then .err .invalidField
    else .ok (fromUtf8Lossy (data.take len), len)
  | .llvar maxLen =>
    if data.length < 1 then .err .invalidField
    else if data.length < 2 then .panic
    else
      match parseUsize (fromUtf8Lossy (data.take 2)) with
      | none => .err .invalidField
      | some len =>
        if len > maxLen then .err .invalidField
        else if data.length < 2 + len then .err .invalidField
        else .ok (fromUtf8Lossy ((data.drop 2).take len), 2 + len)
  | .lllvar maxLen =>
    if data.length < 3 then .err .invalidField
    else
      match parseUsize (fromUtf8Lossy (data.take 3)) with
      | none => .err .invalidField
      | some len =>
        if len > maxLen then .err .invalidField
        else if data.length < 3 + len then .err .invalidField
        else .ok (hexEncodeUpper ((data.drop 3).take len), 3 + len)
  | .binary len =>
    if data.length < len then .err .invalidField
    else .ok (hexEncodeUpper (data.take len), len)

/-- `Iso8583Parser::parse_field`: format lookup, then the per-format decoder. -/
def parseField (de : Nat) (data : List Nat) : RResult (RStr × Nat) :=
  match fieldFormats de with
  | none => .err .invalidField
  | some fmt => parseFieldFmt fmt data

/-- `Iso8583Parser::build_field` for a known format. -/
def buildFieldFmt (fmt : FieldFormat) (value : RStr) : Except ParseError (List Nat) :=
  match fmt with
  | .fixedNumeric len =>
    let padded := leftPad 48 len value
    match hexDecode padded with
    | .error _ => .error .hexError
    | .ok bytes => .ok bytes
  | .fixedAlpha len => .ok (rightPad 32 len value)
  | .llvar _ => .ok (leftPad 48 2 (natDecimal value.length) ++ value)
  | .lllvar _ =>
    match hexDecode value with
    | .error _ => .error .hexError
    | .ok hexBytes => .ok (leftPad 48 3 (natDecimal hexBytes.length) ++ hexBytes)
  | .binary _ =>
    match hexDecode value with
    | .error _ => .error .hexError
    | .ok bytes => .ok bytes

/-- `Iso8583Parser::build_field`: format lookup, then the per-format encoder. -/
def buildField (de : Nat) (value : RStr) : Except ParseError (List Nat) :=
  match fieldFormats de with
  | none => .error .invalidField
  | some fmt => buildFieldFmt fmt value

/-- Round-trip law for one field format: encoding succeeds and decoding the
produced bytes returns the value and consumes exactly those bytes. -/
def fieldRoundTrip (fmt : FieldFormat) (v : RStr) : Prop :=
  ∃ bs, buildFieldFmt fmt v = .ok bs ∧ parseFieldFmt fmt bs = .ok (v, bs.length)

/-- An ASCII byte string (every byte below 128). -/
abbrev asciiStr (s : RStr) : Prop := ∀ b ∈ s, b < 128

/-- An upper-case hex byte string (digits and `A`-`F` only). -/
abbrev upperHexStr (s : RStr) : Prop :=
  ∀ b ∈ s, (48 ≤ b ∧ b ≤ 57) ∨ (65 ≤ b ∧ b ≤ 70)

/-! ## BER-TLV parser (`app/service/tlv_parser.rs`) -/

/-- `TlvParseError` from `tlv_parser.rs`. -/
inductive TlvParseError where
  | invalidHexLength
  | invalidHexChar
  | unexpectedEndOfData
  | invalidLengthEncoding (b : Nat)
  | invalidTag
  deriving DecidableEq, Repr

/-- `TlvElement`: tag as its hex string, declared length, raw value bytes. -/
structure TlvElement where
  tag : RStr
  length : Nat
  value : List Nat
  deriving DecidableEq, Repr

/-- `TlvElement::value_hex` (also `value_bcd`, which is the same rendering). -/
def TlvElement.valueHex (e : TlvElement) : RStr := hexEncodeUpper e.value

/-- `TlvElement::value_bcd`. -/
def TlvElement.valueBcd (e : TlvElement) : RStr := hexEncodeUpper e.value

/-- `TlvElement::value_ascii`: the value itself when every byte is printable
ASCII (printable ASCII is always valid UTF-8), otherwise `none`. -/
def TlvElement.valueAscii (e : TlvElement) : Option RStr :=
  if e.value.all (fun b => 0x20 ≤ b && b ≤ 0x7E) then some e.value else none

/-- `TlvParser::hex_to_bytes`.  `trim().replace(" ", "")` is modelled as
removing space bytes (no claim feeds it data with other whitespace). -/
def TlvParser.hexToBytes (hex : RStr) : Except TlvParseError (List Nat) :=
  let hex := hex.filter (fun c => c ≠ 32)
  if hex.length % 2 ≠ 0 then .error .invalidHexLength
  else
    match hexDecodePairs hex with
    | some bs => .ok bs
    | none => .error .invalidHexChar

/-- The subsequent-byte loop of `TlvParser::parse_tag`: push bytes while the
high bit is set; the byte with the high bit clear terminates the tag. -/
def grabTagBytes : List Nat → List Nat
  | [] => []
  | b :: rest => if b &&& 0x80 == 0 then [b] else b :: grabTagBytes rest

/-- `TlvParser::parse_tag`: multi-byte when the low five bits of the first
byte are all set; returns the hex tag string and the bytes consumed. -/
def TlvParser.parseTag (bytes : List Nat) : Except TlvParseError (RStr × Nat) :=
  match bytes with
  | [] => .error .unexpectedEndOfData
  | first :: rest =>
    if first &&& 0x1F == 0x1F then
      let tagBytes := first :: grabTagBytes rest
      .ok (hexEncodeUpper tagBytes, tagBytes.length)
    else .ok (hexEncodeByte first, 1)

/-- `TlvParser::parse_length` (BER short/long form). -/
def TlvParser.parseLength (bytes : List Nat) : Except TlvParseError (Nat × Nat) :=
  match bytes with
  | [] => .error .unexpectedEndOfData
  | first :: rest =>
    if first ≤ 0x7F then .ok (first, 1)
    else if first = 0x81 then
      match rest with
      | [] => .error .unexpectedEndOfData
      | b1 :: _ => .ok (b1, 2)
    else if first = 0x82 then
      match rest with
      | b1 :: b2 :: _ => .ok ((b1 <<< 8) ||| b2, 3)
      | _ => .error .unexpectedEndOfData
    else if first = 0x83 then
      match rest with
      | b1 :: b2 :: b3 :: _ => .ok ((b1 <<< 16) ||| (b2 <<< 8) ||| b3, 4)
      | _ => .error .unexpectedEndOfData
    else .error (.invalidLengthEncoding first)

/-- `TlvParser::parse_bytes_to_vec`: the while loop as recursion on the
remaining bytes.  When the declared length exceeds the remaining bytes, the
remainder is salvaged as a final truncated element and parsing stops. -/
def TlvParser.parseBytesToVec (bytes : List Nat) : Except TlvParseError (List TlvElement) :=
  match bytes with
  | [] => .ok []
  | first :: rest =>
    match h : TlvParser.parseTag (first :: rest) with
    | .error e => .error e
    | .ok (tag, tagLen) =>
      let afterTag := (first :: rest).drop tagLen
      if afterTag = [] then .ok []
      else
        match TlvParser.parseLength afterTag with
        | .error e => .error e
        | .ok (len, lenBytes) =>
          let afterLen := afterTag.drop lenBytes
          if len > afterLen.length then
            .ok [{ tag := tag, length := afterLen.length, value := afterLen }]
          else
            match TlvParser.parseBytesToVec (afterLen.drop len) with
            | .error e => .error e
            | .ok tail =>
              .ok ({ tag := tag, length := len, value := afterLen.take len } :: tail)
  termination_by bytes.length
  decreasing_by
    have htag : 1 ≤ tagLen := by
      simp only [TlvParser.parseTag] at h
      split at h
      · cases h; simp
      · cases h; omega
    simp only [List.length_drop, List.length_cons]
    omega

/-- The tag-keyed map built by `TlvParser::parse_bytes`: `HashMap` insertion
in element order, modelled as successive function overrides (a later element
with the same tag replaces the earlier one, as `HashMap::insert` does). -/
def tlvMapOf (elems : List TlvElement) : RStr → Option TlvElement :=
  elems.foldl (fun m e => fun k => if k = e.tag then some e else m k) (fun _ => none)

/-- `TlvParser::parse_to_vec`. -/
def TlvParser.parseToVec (hex : RStr) : Except TlvParseError (List TlvElement) :=
  match TlvParser.hexToBytes hex with
  | .error e => .error e
  | .ok bs => TlvParser.parseBytesToVec bs

/-- `TlvParser::parse`: the same element sequence, collected into the map. -/
def TlvParser.parse (hex : RStr) : Except TlvParseError (RStr → Option TlvElement) :=
  match TlvParser.parseToVec hex with
  | .error e => .error e
  | .ok elems => .ok (tlvMapOf elems)

/-- `ParsedEmvData`: tag-keyed map plus the order-preserving list. -/
structure ParsedEmvData where
  elements : RStr → Option TlvElement
  orderedElements : List TlvElement

/-- `ParsedEmvData::from_de55`: one decode pass for the ordered list and one
for the map (both run `parse_bytes_to_vec` on the same input). -/
def ParsedEmvData.fromDe55 (hex : RStr) : Except TlvParseError ParsedEmvData :=
  match TlvParser.parseToVec hex with
  | .error e => .error e
  | .ok ordered =>
    match TlvParser.parse hex with
    | .error e => .error e
    | .ok m => .ok ⟨m, ordered⟩

/-- ASCII bytes of a Lean string literal (for writing tag keys like `"5A"`). -/
def strBytes (s : String) : RStr := s.toList.map Char.toNat

/-- `ParsedEmvData::get_pan` (tag `5A`). -/
def ParsedEmvData.getPan (d : ParsedEmvData) : Option RStr :=
  (d.elements (strBytes "5A")).map TlvElement.valueBcd

/-- `ParsedEmvData::get_expiry_date` (tag `5F24`). -/
def ParsedEmvData.getExpiryDate (d : ParsedEmvData) : Option RStr :=
  (d.elements (strBytes "5F24")).map TlvElement.valueBcd

/-- `ParsedEmvData::get_value`. -/
def ParsedEmvData.getValue (d : ParsedEmvData) (tag : RStr) : Option RStr :=
  (d.elements tag).map TlvElement.valueHex

/-! ## Bitmap (`models/iso8583_message.rs`) -/

/-- Error type for `Bitmap::from_hex` (the source returns `Err(String)`; the
two failure reasons are length and hex decoding). -/
inductive BitmapError where
  | invalidLength (n : Nat)
  | hexError (e : HexError)
  deriving DecidableEq, Repr

/-- `Bitmap`: the `[bool; 128]` array, 0-indexed (`bits[de - 1]` for DE). -/
@[ext]
structure Bitmap where
  bits : Fin 128 → Bool

instance : DecidableEq Bitmap := fun a b =>
  decidable_of_iff (a.bits = b.bits) (by cases a; cases b; simp)

instance {ε α : Type} [DecidableEq ε] [DecidableEq α] : DecidableEq (Except ε α) :=
  fun a b =>
    match a, b with
    | .error e1, .error e2 => decidable_of_iff (e1 = e2) (by simp)
    | .ok a1, .ok a2 => decidable_of_iff (a1 = a2) (by simp)
    | .error _, .ok _ => isFalse (by simp)
    | .ok _, .error _ => isFalse (by simp)

/-- `Bitmap::new`. -/
def Bitmap.new : Bitmap := ⟨fun _ => false⟩

/-- `Bitmap::set_bit`: in-range sets the bit; any DE above 64 also sets
bit 1 (the secondary-bitmap indicator). -/
def Bitmap.setBit (b : Bitmap) (de : Nat) : Bitmap :=
  if 1 ≤ de ∧ de ≤ 128 then
    let b1 : Bitmap := ⟨fun i => if i.val = de - 1 then true else b.bits i⟩
    if 64 < de then ⟨fun i => if i.val = 0 then true else b1.bits i⟩ else b1
  else b

/-- `Bitmap::clear_bit`. -/
def Bitmap.clearBit (b : Bitmap) (de : Nat) : Bitmap :=
  if 1 ≤ de ∧ de ≤ 128 then ⟨fun i => if i.val = de - 1 then false else b.bits i⟩
  else b

/-- `Bitmap::is_set`. -/
def Bitmap.isSet (b : Bitmap) (de : Nat) : Bool :=
  if h : 1 ≤ de ∧ de ≤ 128 then b.bits ⟨de - 1, by omega⟩ else false

/-- The `has_secondary` test of `Bitmap::to_hex`:
`self.bits.iter().skip(64).any(|&b| b)`. -/
def Bitmap.hasSecondary (b : Bitmap) : Bool :=
  (List.finRange 128).any (fun i => 64 ≤ i.val && b.bits i)

/-- The guard `bit_position < 128 && self.bits[bit_position]` of
`Bitmap::to_hex`. -/
def Bitmap.bitAt (b : Bitmap) (pos : Nat) : Bool :=
  if h : pos < 128 then b.bits ⟨pos, h⟩ else false

/-- One output byte of `Bitmap::to_hex`: `byte |= 1 << (7 - bit_idx)` for
each set bit of the byte's eight positions. -/
def Bitmap.byteAt (b : Bitmap) (byteIdx : Nat) : Nat :=
  (List.range 8).foldl
    (fun byte bitIdx =>
      if b.bitAt (byteIdx * 8 + bitIdx) then byte ||| (1 <<< (7 - bitIdx)) else byte)
    0

/-- The byte buffer of `Bitmap::to_hex`: 8 bytes, or 16 when any bit of
65-128 is set. -/
def Bitmap.toBytes (b : Bitmap) : List Nat :=
  (List.range (if b.hasSecondary then 16 else 8)).map (b.byteAt)

/-- `Bitmap::to_hex`. -/
def Bitmap.toHex (b : Bitmap) : RStr := hexEncodeUpper b.toBytes

/-- `Bitmap::from_hex`: requires 16 or 32 hex characters, decodes, and reads
bit `1 << (7 - bit_idx)` of byte `byte_idx` for DE `byte_idx * 8 + bit_idx + 1`
(positions beyond the byte count stay clear).  `trim().replace(" ", "")` is
modelled as removing space bytes. -/
def Bitmap.fromHex (hexIn : RStr) : Except BitmapError Bitmap :=
  let hex := hexIn.filter (fun c => c ≠ 32)
  if hex.length ≠ 16 ∧ hex.length ≠ 32 then .error (.invalidLength hex.length)
  else
    match hexDecode hex with
    | .error e => .error (.hexError e)
    | .ok bytes =>
      .ok ⟨fun i => (bytes.getD (i.val / 8) 0) &&& (1 <<< (7 - i.val % 8)) != 0⟩

/-! ## Message model (`models/iso8583_message.rs`) -/

/-- `Iso8583Message`: MTI, the sparse DE-to-value map (`HashMap<u8, String>`
modelled as a lookup function), and the bitmap hex string.  `created_at` is a
wall-clock timestamp and is omitted. -/
structure Iso8583Message where
  mti : String
  fields : Nat → Option String
  bitmap : RStr

/-- `Iso8583Message::new`. -/
def Iso8583Message.new (mti : String) : Iso8583Message :=
  ⟨mti, fun _ => none, []⟩

/-- `Iso8583Message::set_field`: stores only for `1 <= de <= 128`. -/
def Iso8583Message.setField (m : Iso8583Message) (de : Nat) (v : String) : Iso8583Message :=
  if 1 ≤ de ∧ de ≤ 128 then
    { m with fields := fun k => if k = de then some v else m.fields k }
  else m

/-- `Iso8583Message::get_field`. -/
def Iso8583Message.getField (m : Iso8583Message) (de : Nat) : Option String :=
  m.fields de

/-- `Iso8583Message::remove_field` (the map mutation; the returned old value
is not used by any claim). -/
def Iso8583Message.removeField (m : Iso8583Message) (de : Nat) : Iso8583Message :=
  { m with fields := fun k => if k = de then none else m.fields k }

/-- A sequence of map mutations on a message. -/
inductive MsgOp where
  | set (de : Nat) (v : String)
  | remove (de : Nat)

/-- Apply a list of `set_field` / `remove_field` operations in order. -/
def applyOps (m : Iso8583Message) : List MsgOp → Iso8583Message
  | [] => m
  | .set de v :: rest => applyOps (m.setField de v) rest
  | .remove de :: rest => applyOps (m.removeField de) rest

/-! ## Transaction state and response handling
(`models/transaction.rs`, `app/service/response_handler.rs`) -/

/-- `TransactionState`. -/
inductive TransactionState where
  | created
  | sent
  | approved
  | declined
  | timeout
  | reversed
  | voided
  | failed
  deriving DecidableEq, Repr

/-- `TransactionState::as_str`. -/
def TransactionState.asStr : TransactionState → String
  | .created => "CREATED"
  | .sent => "SENT"
  | .approved => "APPROVED"
  | .declined => "DECLINED"
  | .timeout => "TIMEOUT"
  | .reversed => "REVERSED"
  | .voided => "VOIDED"
  | .failed => "FAILED"

/-- `str::to_uppercase`, modelled as per-character upper-casing (they agree
on ASCII, which is all the state names use). -/
def toUppercase (s : String) : String := ⟨s.data.map Char.toUpper⟩

/-- `TransactionState::from_str` (matches on the upper-cased input). -/
def TransactionState.fromStr (s : String) : Option TransactionState :=
  match toUppercase s with
  | "CREATED" => some .created
  | "SENT" => some .sent
  | "APPROVED" => some .approved
  | "DECLINED" => some .declined
  | "TIMEOUT" => some .timeout
  | "REVERSED" => some .reversed
  | "VOIDED" => some .voided
  | "FAILED" => some .failed
  | _ => none

/-- `ResponseCode` (closed enumeration of ISO8583 response codes). -/
inductive ResponseCode where
  | approved
  | doNotHonor
  | invalidTransaction
  | invalidAmount
  | invalidCard
  | formatError
  | insufficientFunds
  | expiredCard
  | incorrectPin
  | notPermitted
  | notPermittedTerminal
  | exceedsLimit
  | issuerInoperative
  | systemMalfunction
  deriving DecidableEq, Repr

/-- `ResponseCode::as_str`. -/
def ResponseCode.asStr : ResponseCode → String
  | .approved => "00"
  | .doNotHonor => "05"
  | .invalidTransaction => "12"
  | .invalidAmount => "13"
  | .invalidCard => "14"
  | .formatError => "30"
  | .insufficientFunds => "51"
  | .expiredCard => "54"
  | .incorrectPin => "55"
  | .notPermitted => "57"
  | .notPermittedTerminal => "58"
  | .exceedsLimit => "61"
  | .issuerInoperative => "91"
  | .systemMalfunction => "96"

/-- `ResponseCode::from_str`. -/
def ResponseCode.fromStr (s : String) : Option ResponseCode :=
  match s with
  | "00" => some .approved
  | "05" => some .doNotHonor
  | "12" => some .invalidTransaction
  | "13" => some .invalidAmount
  | "14" => some .invalidCard
  | "30" => some .formatError
  | "51" => some .insufficientFunds
  | "54" => some .expiredCard
  | "55" => some .incorrectPin
  | "57" => some .notPermitted
  | "58" => some .notPermittedTerminal
  | "61" => some .exceedsLimit
  | "91" => some .issuerInoperative
  | "96" => some .systemMalfunction
  | _ => none

/-- `ResponseCode::to_transaction_state`: only `Approved` maps to `Approved`,
everything else to `Declined`. -/
def ResponseCode.toTransactionState : ResponseCode → TransactionState
  | .approved => .approved
  | _ => .declined

/-- `ResponseHandler::parse_response`: reads DE39, maps a recognized code
through `to_transaction_state`, and yields `(Failed, None)` otherwise. -/
def ResponseHandler.parseResponse (response : Iso8583Message) :
    TransactionState × Option ResponseCode :=
  match response.getField 39 with
  | some codeStr =>
    match ResponseCode.fromStr codeStr with
    | some code => (code.toTransactionState, some code)
    | none => (.failed, none)
  | none => (.failed, none)

/-! ## STAN generator (`app/service/stan_generator.rs`) -/

/-- The state of `StanGenerator`: the `AtomicU32` counter value and the
guarded last-reset date string; `next` is modelled as a sequential state
transition (the claims are about its sequential behaviour). -/
structure StanState where
  current : Nat
  lastDate : String
  deriving DecidableEq, Repr

/-- `StanGenerator::new` on a given current date. -/
def StanState.new (today : String) : StanState := ⟨0, today⟩

/-- `format!("{:06}", n)`. -/
def format06 (n : Nat) : String :=
  ⟨(leftPad 48 6 (natDecimal n)).map Char.ofNat⟩

/-- `StanGenerator::next`, as a function of the state and the current date:
date change resets the counter to 0; then increment-and-fetch (`u32`
wrap-around made explicit); above 999999 the counter is forced back to 1. -/
def stanNext (s : StanState) (currentDate : String) : String × StanState :=
  let s := if s.lastDate ≠ currentDate then { current := 0, lastDate := currentDate } else s
  let nextVal := (s.current + 1) % 2 ^ 32
  if nextVal > 999999 then (format06 1, { s with current := 1 })
  else (format06 nextVal, { s with current := nextVal })

/-! ## Transaction record and reversal service
(`models/transaction.rs`, `app/service/reversal_service.rs`) -/

/-- `Iso8583Transaction` (the persisted record; datetime bookkeeping fields
`inst_dtm` / `updt_dtm` are carried verbatim as optional strings). -/
structure Iso8583Transaction where
  tr_dt : String
  tr_tm : String
  tr_uniq_no : String
  trm_id : Option String
  msg_typ : Option String
  inst_trm_id : Option String
  inst_mer_no : Option String
  field_000 : Option String
  field_001 : Option String
  field_002 : Option String
  field_003 : Option String
  field_004 : Option String
  field_007 : Option String
  field_011 : Option String
  field_012 : Option String
  field_013 : Option String
  field_014 : Option String
  field_022 : Option String
  field_023 : Option String
  field_025 : Option String
  field_032 : Option String
  field_035 : Option String
  field_037 : Option String
  field_038 : Option String
  field_039 : Option String
  field_041 : Option String
  field_042 : Option String
  field_043 : Option String
  field_049 : Option String
  field_052 : Option String
  field_054 : Option String
  field_055 : Option String
  field_060 : Option String
  field_061 : Option String
  field_062 : Option String
  field_063 : Option String
  field_064 : Option String
  field_070 : Option String
  field_090 : Option String
  field_095 : Option String
  field_102 : Option String
  field_103 : Option String
  field_123 : Option String
  field_127 : Option String
  field_128 : Option String
  inst_dtm : Option String
  updt_dtm : Option String
  tr_type : Option String

/-- `ReversalReason`. -/
inductive ReversalReason where
  | timeout
  | customerCancellation
  | suspectedMalfunction
  | unableToDeliver
  | other
  deriving DecidableEq, Repr

/-- `ReversalReason::as_code`. -/
def ReversalReason.asCode : ReversalReason → String
  | .timeout => "68"
  | .customerCancellation => "17"
  | .suspectedMalfunction => "96"
  | .unableToDeliver => "68"
  | .other => "99"

/-- `ReversalError` (the `DatabaseError` payload is dropped). -/
inductive ReversalError where
  | transactionNotFound
  | transactionAlreadyCompleted
  | alreadyReversed
  | databaseError
  | invalidState
  deriving DecidableEq, Repr

/-- The `%m%d%H%M%S` / `%H%M%S` / `%m%d` renderings of `Local::now()` at the
moment `create_reversal` runs, passed in explicitly. -/
structure LocalNow where
  mmddhhmmss : String
  hhmmss : String
  mmdd : String

/-- `if let Some(x) = o { m.set_field(de, x) }`. -/
def setOpt (m : Iso8583Message) (de : Nat) (o : Option String) : Iso8583Message :=
  match o with
  | some v => m.setField de v
  | none => m

/-- `ReversalService::create_reversal`: MTI `0400`, fresh STAN, fresh
timestamps, copied key fields, DE90 = original DE13 ++ DE12 ++ unique
transaction number (with the source's `unwrap_or` defaults), DE56 = reason. -/
def createReversal (originalTx : Iso8583Transaction) (reasonCode : ReversalReason)
    (reversalStan : String) (now : LocalNow) : Except ReversalError Iso8583Message :=
  let reversal := Iso8583Message.new "0400"
  let reversal := reversal.setField 11 reversalStan
  let reversal := reversal.setField 7 now.mmddhhmmss
  let reversal := reversal.setField 12 now.hhmmss
  let reversal := reversal.setField 13 now.mmdd
  let reversal := setOpt reversal 2 originalTx.field_002
  let reversal := setOpt reversal 3 originalTx.field_003
  let reversal := setOpt reversal 4 originalTx.field_004
  let reversal := setOpt reversal 41 originalTx.field_041
  let reversal := setOpt reversal 42 originalTx.field_042
  let reversal := setOpt reversal 49 originalTx.field_049
  let originalData :=
    originalTx.field_013.getD "0000" ++ originalTx.field_012.getD "000000"
      ++ originalTx.tr_uniq_no
  let reversal := reversal.setField 90 originalData
  let reversal := reversal.setField 56 reasonCode.asCode
  .ok reversal

/-- `ReversalService::auto_reverse_timeout` after the repository lookup
(`find_by_stan_today` abstracted to its `Option` result; a database error
aborts before this logic and is out of scope): gate on the stored state,
then create a Timeout reversal. -/
def autoReverseTimeout (findResult : Option Iso8583Transaction)
    (reversalStan : String) (now : LocalNow) : Except ReversalError Iso8583Message :=
  match findResult with
  | none => .error .transactionNotFound
  | some originalTx =>
    let gate : Option ReversalError :=
      match originalTx.tr_type with
      | some trType =>
        match TransactionState.fromStr trType with
        | some .approved => some .transactionAlreadyCompleted
        | some .reversed => some .alreadyReversed
        | _ => none
      | none => none
    match gate with
    | some e => .error e
    | none => createReversal originalTx .timeout reversalStan now

/-- `ReversalService::manual_reverse` after the repository lookup: no state
gate at all, straight to `create_reversal`. -/
def manualReverse (findResult : Option Iso8583Transaction) (reason : ReversalReason)
    (reversalStan : String) (now : LocalNow) : Except ReversalError Iso8583Message :=
  match findResult with
  | none => .error .transactionNotFound
  | some originalTx => createReversal originalTx reason reversalStan now

/-- A concrete transaction record with every optional field empty, used to
instantiate the reversal claims. -/
def emptyTx : Iso8583Transaction where
  tr_dt := "20251012"
  tr_tm := "120000"
  tr_uniq_no := "000042"
  trm_id := none
  msg_typ := none
  inst_trm_id := none
  inst_mer_no := none
  field_000 := none
  field_001 := none
  field_002 := none
  field_003 := none
  field_004 := none
  field_007 := none
  field_011 := none
  field_012 := none
  field_013 := none
  field_014 := none
  field_022 := none
  field_023 := none
  field_025 := none
  field_032 := none
  field_035 := none
  field_037 := none
  field_038 := none
  field_039 := none
  field_041 := none
  field_042 := none
  field_043 := none
  field_049 := none
  field_052 := none
  field_054 := none
  field_055 := none
  field_060 := none
  field_061 := none
  field_062 := none
  field_063 := none
  field_064 := none
  field_070 := none
  field_090 := none
  field_095 := none
  field_102 := none
  field_103 := none
  field_123 := none
  field_127 := none
  field_128 := none
  inst_dtm := none
  updt_dtm := none
  tr_type := none

/-! ## Helper lemmas: hex encoding round trips -/

theorem upperHex_digitVal {c : Nat} (hc : (48 ≤ c ∧ c ≤ 57) ∨ (65 ≤ c ∧ c ≤ 70)) :
    ∃ h, hexDigitVal c = some h ∧ h < 16 ∧ hexDigitUpper h = c := by
  rcases hc with ⟨h1, h2⟩ | ⟨h1, h2⟩
  · refine ⟨c - 48, by simp [hexDigitVal, h1, h2], by omega, ?_⟩
    simp [hexDigitUpper, show c - 48 < 10 by omega]
    omega
  · refine ⟨c - 55, ?_, by omega, ?_⟩
    · have hnd : ¬(48 ≤ c ∧ c ≤ 57) := by omega
      simp [hexDigitVal, hnd, h1, h2]
    · simp [hexDigitUpper, show ¬(c - 55 < 10) by omega]
      omega

theorem hexEncodeByte_of_nibbles {h l : Nat} (hh : h < 16) (hl : l < 16) :
    hexEncodeByte (16 * h + l) = [hexDigitUpper h, hexDigitUpper l] := by
  have hb : 16 * h + l < 256 := by omega
  have : (16 * h + l) % 256 = 16 * h + l := Nat.mod_eq_of_lt hb
  simp only [hexEncodeByte, this]
  congr 1
  · congr 1
    omega
  · congr 2
    omega

theorem hexDecodePairs_upperHex (s : RStr) (hu : upperHexStr s) (he : s.length % 2 = 0) :
    ∃ bs, hexDecodePairs s = some bs ∧ hexEncodeUpper bs = s ∧
      2 * bs.length = s.length ∧ ∀ b ∈ bs, b < 256 := by
  induction s using hexDecodePairs.induct with
  | case1 =>
    exact ⟨[], rfl, rfl, rfl, by simp⟩
  | case2 c =>
    simp at he
  | case3 c1 c2 rest h l r hr hval2 hval1 ih =>
    obtain ⟨h', hval1', hlt1, henc1⟩ := upperHex_digitVal (hu c1 (by simp))
    obtain ⟨l', hval2', hlt2, henc2⟩ := upperHex_digitVal (hu c2 (by simp))
    have hh : h = h' := by rw [hval1] at hval1'; exact Option.some_inj.mp hval1'
    have hl : l = l' := by rw [hval2] at hval2'; exact Option.some_inj.mp hval2'
    subst hh hl
    obtain ⟨bs, hdec, henc, hlen, hbnd⟩ := ih
      (fun b hb => hu b (by simp [hb]))
      (by simp at he ⊢; omega)
    refine ⟨(16 * h + l) :: bs, ?_, ?_, ?_, ?_⟩
    · simp [hexDecodePairs, hval1, hval2, hdec]
    · simp only [hexEncodeUpper, List.map_cons, List.flatten_cons,
        hexEncodeByte_of_nibbles hlt1 hlt2]
      simp only [hexEncodeUpper] at henc
      simp [henc, henc1, henc2]
    · simp at hlen ⊢
      omega
    · intro b hb
      rcases List.mem_cons.mp hb with rfl | hb
      · omega
      · exact hbnd b hb
  | case4 c1 c2 rest hcontra ih =>
    exfalso
    obtain ⟨h, hval1, _, _⟩ := upperHex_digitVal (hu c1 (by simp))
    obtain ⟨l, hval2, _, _⟩ := upperHex_digitVal (hu c2 (by simp))
    obtain ⟨bs, hdec, _, _, _⟩ := ih
      (fun b hb => hu b (by simp [hb]))
      (by simp at he ⊢; omega)
    exact hcontra h l bs hval1 hval2 hdec

theorem hexEncodeUpper_length (bs : List Nat) :
    (hexEncodeUpper bs).length = 2 * bs.length := by
  induction bs with
  | nil => rfl
  | cons b rest ih => simp [hexEncodeUpper, hexEncodeByte] at ih ⊢; omega

theorem hexDigitVal_upper (n : Nat) (h : n < 16) :
    hexDigitVal (hexDigitUpper n) = some n := by
  interval_cases n <;> rfl

theorem hexDecodePairs_encode (bs : List Nat) (hb : ∀ b ∈ bs, b < 256) :
    hexDecodePairs (hexEncodeUpper bs) = some bs := by
  induction bs with
  | nil => rfl
  | cons b rest ih =>
    have hblt : b < 256 := hb b (by simp)
    have hmod : b % 256 = b := Nat.mod_eq_of_lt hblt
    have ih' := ih (fun x hx => hb x (by simp [hx]))
    simp only [hexEncodeUpper, List.map_cons, List.flatten_cons, hexEncodeByte, hmod,
      List.cons_append, List.nil_append]
    simp only [hexEncodeUpper] at ih'
    have hdm : 16 * (b / 16) + b % 16 = b := by omega
    simp only [hexDecodePairs, hexDigitVal_upper (b / 16) (by omega),
      hexDigitVal_upper (b % 16) (by omega), ih', hdm]

theorem hexDecode_encode (bs : List Nat) (hb : ∀ b ∈ bs, b < 256) :
    hexDecode (hexEncodeUpper bs) = .ok bs := by
  simp [hexDecode, hexEncodeUpper_length, Nat.mul_mod_right,
    hexDecodePairs_encode bs hb]

theorem fromUtf8Lossy_ascii (s : RStr) (h : asciiStr s) : fromUtf8Lossy s = s := by
  induction s with
  | nil => rfl
  | cons b rest ih =>
    have hb : b < 128 := h b (by simp)
    have hmod : b % 256 = b := Nat.mod_eq_of_lt (by omega)
    simp only [fromUtf8Lossy, List.map_cons, List.flatten_cons, hmod, if_pos hb]
    simp only [fromUtf8Lossy] at ih
    simp [ih (fun x hx => h x (by simp [hx]))]

/-! ## Decimal rendering lemmas -/

theorem natDecimalAux_append (n : Nat) : ∀ acc : List Nat,
    natDecimalAux n acc = natDecimalAux n [] ++ acc := by
  induction n using Nat.strong_induction_on with
  | _ n ih =>
    intro acc
    match n with
    | 0 => simp [natDecimalAux]
    | m + 1 =>
      simp only [natDecimalAux]
      rw [ih ((m + 1) / 10) (Nat.div_lt_self (Nat.succ_pos m) (by omega)),
        ih ((m + 1) / 10) (Nat.div_lt_self (Nat.succ_pos m) (by omega))
          ((48 + (m + 1) % 10) :: [])]
      simp

theorem natDecimalAux_digits (n : Nat) :
    ∀ c ∈ natDecimalAux n [], 48 ≤ c ∧ c ≤ 57 := by
  induction n using Nat.strong_induction_on with
  | _ n ih =>
    match n with
    | 0 => simp [natDecimalAux]
    | m + 1 =>
      intro c hc
      simp only [natDecimalAux] at hc
      rw [natDecimalAux_append] at hc
      rcases List.mem_append.mp hc with hc | hc
      · exact ih ((m + 1) / 10) (Nat.div_lt_self (Nat.succ_pos m) (by omega)) c hc
      · simp at hc
        omega

theorem natDecimal_digits (n : Nat) : ∀ c ∈ natDecimal n, 48 ≤ c ∧ c ≤ 57 := by
  unfold natDecimal
  split
  · simp
  · exact natDecimalAux_digits n

theorem natDecimalAux_length (k : Nat) : ∀ n, n < 10 ^ k →
    (natDecimalAux n []).length ≤ k := by
  induction k with
  | zero =>
    intro n hn
    interval_cases n
    simp [natDecimalAux]
  | succ k ih =>
    intro n hn
    match n with
    | 0 => simp [natDecimalAux]
    | m + 1 =>
      simp only [natDecimalAux]
      rw [natDecimalAux_append]
      have hdiv : (m + 1) / 10 < 10 ^ k := by
        rw [Nat.div_lt_iff_lt_mul (by omega)]
        calc m + 1 < 10 ^ (k + 1) := hn
        _ = 10 ^ k * 10 := by ring
      have := ih ((m + 1) / 10) hdiv
      simp
      omega

theorem natDecimal_length (k n : Nat) (hk : 1 ≤ k) (hn : n < 10 ^ k) :
    (natDecimal n).length ≤ k := by
  unfold natDecimal
  split
  · simpa
  · exact natDecimalAux_length k n hn

theorem natDecimal_ne_nil (n : Nat) : natDecimal n ≠ [] := by
  unfold natDecimal
  split
  · simp
  · rename_i hn
    match n, hn with
    | m + 1, _ =>
      simp only [natDecimalAux]
      rw [natDecimalAux_append]
      simp

/-- The digit-accumulating fold of `parseUsize`. -/
def decimalVal (s : List Nat) : Nat := s.foldl (fun a c => a * 10 + (c - 48)) 0

theorem decimalVal_natDecimalAux (n : Nat) (hn : 0 < n) : ∀ seed : Nat,
    (natDecimalAux n []).foldl (fun a c => a * 10 + (c - 48)) seed =
      seed * 10 ^ (natDecimalAux n []).length + n := by
  induction n using Nat.strong_induction_on with
  | _ n ih =>
    intro seed
    match n, hn with
    | m + 1, _ =>
      simp only [natDecimalAux]
      rw [natDecimalAux_append]
      rcases Nat.lt_or_ge (m + 1) 10 with hsmall | hbig
      · have h0 : (m + 1) / 10 = 0 := by omega
        simp [h0, natDecimalAux]
        omega
      · have hpos : 0 < (m + 1) / 10 := Nat.div_pos (by omega) (by omega)
        rw [List.foldl_append,
          ih ((m + 1) / 10) (Nat.div_lt_self (Nat.succ_pos m) (by omega)) hpos seed]
        simp [List.foldl]
        rw [pow_succ, ← mul_assoc]
        have hdm := Nat.div_add_mod (m + 1) 10
        omega

theorem decimalVal_replicate_zero (k : Nat) :
    (List.replicate k 48).foldl (fun a c => a * 10 + (c - 48)) 0 = 0 := by
  induction k with
  | zero => rfl
  | succ k ih => simpa [List.replicate_succ]

theorem decimalVal_leftPad_natDecimal (w n : Nat) :
    decimalVal (leftPad 48 w (natDecimal n)) = n := by
  unfold decimalVal leftPad
  rw [List.foldl_append, decimalVal_replicate_zero]
  unfold natDecimal
  split
  · simp
    omega
  · rename_i hn
    match n, hn with
    | m + 1, _ =>
      rw [decimalVal_natDecimalAux (m + 1) (Nat.succ_pos m) 0]
      simp

theorem parseUsize_leftPad_natDecimal (w n : Nat) (hn : n < 2 ^ 64) :
    parseUsize (leftPad 48 w (natDecimal n)) = some n := by
  have hdigits : ∀ c ∈ leftPad 48 w (natDecimal n), 48 ≤ c ∧ c ≤ 57 := by
    intro c hc
    rcases List.mem_append.mp hc with hc | hc
    · have := List.eq_of_mem_replicate hc
      omega
    · exact natDecimal_digits n c hc
  have hne : leftPad 48 w (natDecimal n) ≠ [] := by
    unfold leftPad
    simp [natDecimal_ne_nil n]
  obtain ⟨c, s', hcons⟩ := List.exists_cons_of_ne_nil hne
  have hc48 : 48 ≤ c ∧ c ≤ 57 := hdigits c (by rw [hcons]; simp)
  rw [hcons]
  show parseUsize (c :: s') = some n
  have hval : (c :: s').foldl (fun a c => a * 10 + (c - 48)) 0 = n := by
    have h := decimalVal_leftPad_natDecimal w n
    unfold decimalVal at h
    rw [hcons] at h
    exact h
  have hall : (c :: s').all (fun x => 48 ≤ x && x ≤ 57) = true := by
    rw [List.all_eq_true]
    intro x hx
    have := hdigits x (by rw [hcons]; exact hx)
    simp
    omega
  have hcne : ¬((c :: s').head? = some 43) := by simp; omega
  unfold parseUsize
  rw [if_neg hcne]
  simp only [List.isEmpty_cons, Bool.false_eq_true, if_false, hall, if_true, hval]
  rw [if_pos hn]

theorem leftPad_length (c w : Nat) (s : List Nat) :
    (leftPad c w s).length = max w s.length := by
  simp [leftPad]
  omega

theorem leftPad_ascii (w : Nat) (s : List Nat) (h : ∀ c ∈ s, 48 ≤ c ∧ c ≤ 57) :
    asciiStr (leftPad 48 w s) := by
  intro b hb
  rcases List.mem_append.mp hb with hb | hb
  · have := List.eq_of_mem_replicate hb
    omega
  · have := h b hb
    omega

/-! ## Round-trip lemmas for the five field formats -/

theorem roundTrip_fixedNumeric_even (n : Nat) (v : RStr) (hn : n % 2 = 0)
    (hu : upperHexStr v) (hlen : v.length = n) :
    fieldRoundTrip (.fixedNumeric n) v := by
  obtain ⟨bs, hdec, henc, hblen, hbnd⟩ :=
    hexDecodePairs_upperHex v hu (by rw [hlen]; exact hn)
  have hpad : leftPad 48 n v = v := by simp [leftPad, hlen]
  have hbcd : (n + 1) / 2 = n / 2 := by omega
  have hbsn : bs.length = n / 2 := by omega
  refine ⟨bs, ?_, ?_⟩
  · simp only [buildFieldFmt, hpad, hexDecode, hlen]
    rw [if_neg (by omega), hdec]
  · simp only [parseFieldFmt, hbcd, hbsn]
    rw [if_neg (by omega)]
    rw [show List.take (n / 2) bs = bs from List.take_of_length_le (by omega), henc, hlen,
      Nat.min_self, List.take_of_length_le (by rw [hlen])]

theorem roundTrip_fixedAlpha (n : Nat) (v : RStr) (ha : asciiStr v)
    (hlen : v.length = n) :
    fieldRoundTrip (.fixedAlpha n) v := by
  refine ⟨v, ?_, ?_⟩
  · simp [buildFieldFmt, rightPad, hlen]
  · simp only [parseFieldFmt, hlen]
    rw [if_neg (by omega)]
    rw [show v.take n = v from hlen ▸ List.take_length (l := v)]
    rw [fromUtf8Lossy_ascii v ha]

theorem roundTrip_llvar (m : Nat) (v : RStr) (hm : m ≤ 99) (ha : asciiStr v)
    (hlen : v.length ≤ m) :
    fieldRoundTrip (.llvar m) v := by
  have hparse := parseUsize_leftPad_natDecimal 2 v.length (by omega)
  have hdl : (natDecimal v.length).length ≤ 2 :=
    natDecimal_length 2 v.length (by omega) (by omega)
  have hpascii : asciiStr (leftPad 48 2 (natDecimal v.length)) :=
    leftPad_ascii 2 _ (natDecimal_digits _)
  set p := leftPad 48 2 (natDecimal v.length) with hp
  have hplen : p.length = 2 := by rw [hp, leftPad_length]; omega
  refine ⟨p ++ v, ?_, ?_⟩
  · simp [buildFieldFmt]
  · have hlen2 : (p ++ v).length = 2 + v.length := by simp [hplen]
    simp only [parseFieldFmt]
    rw [if_neg (by omega), if_neg (by omega)]
    rw [show (p ++ v).take 2 = p by rw [← hplen]; exact List.take_left p v]
    rw [fromUtf8Lossy_ascii p hpascii]
    simp only [hparse]
    rw [if_neg (by omega), if_neg (by omega)]
    rw [show (p ++ v).drop 2 = v by rw [← hplen]; exact List.drop_left p v]
    rw [List.take_length (l := v)]
    rw [fromUtf8Lossy_ascii v ha, hlen2]

theorem roundTrip_lllvar (m : Nat) (v : RStr) (hm : m ≤ 999) (hu : upperHexStr v)
    (heven : v.length % 2 = 0) (hhalf : v.length / 2 ≤ m) :
    fieldRoundTrip (.lllvar m) v := by
  obtain ⟨bs, hdec, henc, hblen, hbnd⟩ := hexDecodePairs_upperHex v hu heven
  have hbsm : bs.length ≤ m := by omega
  have hparse := parseUsize_leftPad_natDecimal 3 bs.length (by omega)
  have hdl : (natDecimal bs.length).length ≤ 3 :=
    natDecimal_length 3 bs.length (by omega) (by omega)
  have hpascii : asciiStr (leftPad 48 3 (natDecimal bs.length)) :=
    leftPad_ascii 3 _ (natDecimal_digits _)
  set p := leftPad 48 3 (natDecimal bs.length) with hp
  have hplen : p.length = 3 := by rw [hp, leftPad_length]; omega
  refine ⟨p ++ bs, ?_, ?_⟩
  · simp only [buildFieldFmt, hexDecode]
    rw [if_neg (by omega), hdec]
  · have hlen3 : (p ++ bs).length = 3 + bs.length := by simp [hplen]
    simp only [parseFieldFmt]
    rw [if_neg (by omega)]
    rw [show (p ++ bs).take 3 = p by rw [← hplen]; exact List.take_left p bs]
    rw [fromUtf8Lossy_ascii p hpascii]
    simp only [hparse]
    rw [if_neg (by omega), if_neg (by omega)]
    rw [show (p ++ bs).drop 3 = bs by rw [← hplen]; exact List.drop_left p bs]
    rw [List.take_length (l := bs), henc, hlen3]

theorem roundTrip_binary (n : Nat) (v : RStr) (hu : upperHexStr v)
    (hlen : v.length = 2 * n) :
    fieldRoundTrip (.binary n) v := by
  obtain ⟨bs, hdec, henc, hblen, hbnd⟩ :=
    hexDecodePairs_upperHex v hu (by omega)
  have hbsn : bs.length = n := by omega
  refine ⟨bs, ?_, ?_⟩
  · simp only [buildFieldFmt, hexDecode]
    rw [if_neg (by omega), hdec]
  · simp only [parseFieldFmt, hbsn]
    rw [if_neg (by omega)]
    rw [show bs.take n = bs from hbsn ▸ List.take_length (l := bs), henc]

/-! ## Claim C1 -/

/-- C1: the claimed round-trip law `decode(encode(v)) == v` holds for
`FixedAlpha`, `Llvar`, `Lllvar`, `Binary`, and for `FixedNumeric(n)` with
even `n` — but for `FixedNumeric` with odd `n` (DE22/DE23/DE49/DE70 in the
format table) `build_field` hex-decodes an odd-length digit string, which
always fails, so no value of those fields can be encoded at all.  The first
two conjuncts evaluate the code at the failing input (DE22, value `"051"`):
encoding errors instead of producing bytes, refuting the round trip there;
the rest prove the law everywhere else. -/
theorem C1_field_codec_roundtrip :
    buildField 22 (strBytes "051") = .error .hexError ∧
    ¬ fieldRoundTrip (.fixedNumeric 3) (strBytes "051") ∧
    (∀ n v, n % 2 = 0 → upperHexStr v → v.length = n →
      fieldRoundTrip (.fixedNumeric n) v) ∧
    (∀ n v, asciiStr v → v.length = n → fieldRoundTrip (.fixedAlpha n) v) ∧
    (∀ m v, m ≤ 99 → asciiStr v → v.length ≤ m → fieldRoundTrip (.llvar m) v) ∧
    (∀ m v, m ≤ 999 → upperHexStr v → v.length % 2 = 0 → v.length / 2 ≤ m →
      fieldRoundTrip (.lllvar m) v) ∧
    (∀ n v, upperHexStr v → v.length = 2 * n → fieldRoundTrip (.binary n) v) := by
  refine ⟨rfl, ?_, roundTrip_fixedNumeric_even, roundTrip_fixedAlpha,
    roundTrip_llvar, roundTrip_lllvar, roundTrip_binary⟩
  rintro ⟨bs, hb, -⟩
  rw [show buildFieldFmt (.fixedNumeric 3) (strBytes "051") = .error .hexError from rfl] at hb
  simp at hb

/-- C1 witness: the round-trip conjuncts applied at concrete values for each
of the five formats. -/
theorem C1_field_codec_roundtrip_witness :
    fieldRoundTrip (.fixedNumeric 6) (strBytes "123456") ∧
    fieldRoundTrip (.fixedAlpha 8) (strBytes "TERM0001") ∧
    fieldRoundTrip (.llvar 19) (strBytes "4111111111111111") ∧
    fieldRoundTrip (.lllvar 999) (strBytes "9F2608AABBCCDD112233") ∧
    fieldRoundTrip (.binary 8) (strBytes "0123456789ABCDEF") := by
  obtain ⟨-, -, hnum, halpha, hll, hlll, hbin⟩ := C1_field_codec_roundtrip
  exact ⟨hnum 6 _ (by decide) (by decide) (by decide),
    halpha 8 _ (by decide) (by decide),
    hll 19 _ (by decide) (by decide) (by decide),
    hlll 999 _ (by decide) (by decide) (by decide) (by decide),
    hbin 8 _ (by decide) (by decide)⟩

/-! ## Claim C2 -/

/-- C2: for `Llvar` fields the decoder does return errors when the stated
length exceeds the maximum or the data is too short, and on the empty slice —
but on a one-byte slice the guard `data.len() < 1` does not fire and
`&data[..2]` panics, contradicting the claim that every short slice yields a
failure result. -/
theorem C2_llvar_decode_errors :
    parseFieldFmt (.llvar 19) [49] = .panic ∧
    (∀ m : Nat, parseFieldFmt (.llvar m) [] = .err .invalidField) ∧
    (∀ m data len, 2 ≤ data.length →
      parseUsize (fromUtf8Lossy (data.take 2)) = some len →
      (m < len ∨ data.length < 2 + len) →
      parseFieldFmt (.llvar m) data = .err .invalidField) := by
  refine ⟨rfl, fun m => rfl, ?_⟩
  intro m data len h2 hp hc
  simp only [parseFieldFmt]
  rw [if_neg (by omega), if_neg (by omega)]
  simp only [hp]
  by_cases hgt : m < len
  · rw [if_pos (by omega)]
  · rw [if_neg (by omega), if_pos (by omega)]

/-- C2 witness: a stated length of 99 on a DE2-style `Llvar(19)` field is
rejected with an error. -/
theorem C2_llvar_decode_errors_witness :
    parseFieldFmt (.llvar 19) (strBytes "99") = .err .invalidField :=
  C2_llvar_decode_errors.2.2 19 (strBytes "99") 99 (by decide) (by decide)
    (Or.inl (by decide))

/-! ## Bitmap lemmas -/

theorem testBit_foldl_orBits (l : List Nat) (init : Nat) (f : Nat → Bool) (m : Nat) :
    Nat.testBit
      (l.foldl (fun byte j => if f j then byte ||| (1 <<< (7 - j)) else byte) init) m
      = (Nat.testBit init m || l.any (fun j => f j && decide (7 - j = m))) := by
  induction l generalizing init with
  | nil => simp
  | cons j rest ih =>
    simp only [List.foldl_cons, List.any_cons]
    rw [ih]
    by_cases hf : f j
    · simp [hf, Nat.testBit_lor, Nat.one_shiftLeft, Nat.testBit_two_pow, Bool.or_assoc]
    · simp [hf]

theorem testBit_byteAt (b : Bitmap) (k m : Nat) :
    Nat.testBit (b.byteAt k) m
      = (List.range 8).any (fun j => b.bitAt (k * 8 + j) && decide (7 - j = m)) := by
  unfold Bitmap.byteAt
  rw [testBit_foldl_orBits]
  simp

theorem testBit_byteAt_lt (b : Bitmap) (k m : Nat) (hm : m < 8) :
    Nat.testBit (b.byteAt k) m = b.bitAt (k * 8 + (7 - m)) := by
  rw [testBit_byteAt]
  have hrange : List.range 8 = [0, 1, 2, 3, 4, 5, 6, 7] := rfl
  rw [hrange]
  interval_cases m <;> simp

theorem byteAt_lt (b : Bitmap) (k : Nat) : b.byteAt k < 256 := by
  unfold Bitmap.byteAt
  have : ∀ l : List Nat, (∀ j ∈ l, j < 8) → ∀ init : Nat, init < 256 →
      l.foldl (fun byte j => if b.bitAt (k * 8 + j) then byte ||| (1 <<< (7 - j)) else byte)
        init < 256 := by
    intro l
    induction l with
    | nil => intro _ init h; simpa using h
    | cons j rest ih =>
      intro hmem init hinit
      simp only [List.foldl_cons]
      apply ih (fun x hx => hmem x (by simp [hx]))
      by_cases hb : b.bitAt (k * 8 + j)
      · simp only [hb, if_true]
        have h7 : (7 - j) ≤ 7 := by omega
        have : (1 <<< (7 - j)) < 256 := by
          rw [Nat.one_shiftLeft]
          calc 2 ^ (7 - j) ≤ 2 ^ 7 := Nat.pow_le_pow_right (by omega) h7
          _ < 256 := by norm_num
        exact Nat.or_lt_two_pow (n := 8) hinit this
      · simpa [hb]
  exact this (List.range 8) (by simp) 0 (by norm_num)

theorem testBit_byteAt_ge (b : Bitmap) (k m : Nat) (hm : 8 ≤ m) :
    Nat.testBit (b.byteAt k) m = false := by
  have hlt : b.byteAt k < 2 ^ m := by
    have h1 := byteAt_lt b k
    have h2 : (256 : Nat) ≤ 2 ^ m := by
      calc (256 : Nat) = 2 ^ 8 := by norm_num
      _ ≤ 2 ^ m := Nat.pow_le_pow_right (by norm_num) hm
    omega
  exact Nat.testBit_lt_two_pow hlt

theorem toBytes_length (b : Bitmap) :
    b.toBytes.length = if b.hasSecondary then 16 else 8 := by
  simp [Bitmap.toBytes]

theorem toBytes_getD (b : Bitmap) (i : Nat) :
    b.toBytes.getD i 0 =
      if i < (if b.hasSecondary then 16 else 8) then b.byteAt i else 0 := by
  unfold Bitmap.toBytes
  rw [List.getD_eq_getElem?_getD, List.getElem?_map]
  by_cases hi : i < (if b.hasSecondary then 16 else 8)
  · rw [if_pos hi, List.getElem?_range hi]
    rfl
  · rw [if_neg hi, List.getElem?_eq_none (by simpa using hi)]
    rfl

theorem hasSecondary_false_iff (b : Bitmap) :
    b.hasSecondary = false ↔ ∀ i : Fin 128, 64 ≤ i.val → b.bits i = false := by
  unfold Bitmap.hasSecondary
  rw [← Bool.not_eq_true, List.any_eq_true]
  constructor
  · intro h i hi
    cases hbi : b.bits i
    · rfl
    · exact absurd ⟨i, List.mem_finRange i, by simp [hi, hbi]⟩ h
  · rintro h ⟨i, -, hi⟩
    simp only [Bool.and_eq_true, decide_eq_true_eq] at hi
    rw [h i hi.1] at hi
    exact Bool.false_ne_true hi.2

theorem hexEncodeUpper_chars (bs : List Nat) :
    ∀ c ∈ hexEncodeUpper bs, (48 ≤ c ∧ c ≤ 57) ∨ (65 ≤ c ∧ c ≤ 70) := by
  intro c hc
  simp only [hexEncodeUpper, List.mem_flatten] at hc
  obtain ⟨l, hl, hcl⟩ := hc
  simp only [List.mem_map] at hl
  obtain ⟨x, -, rfl⟩ := hl
  simp only [hexEncodeByte, List.mem_cons] at hcl
  have h1 : x % 256 / 16 < 16 := by omega
  have h2 : x % 16 < 16 := by omega
  rcases hcl with rfl | hcl
  · unfold hexDigitUpper
    split <;> omega
  · simp at hcl
    subst hcl
    unfold hexDigitUpper
    split <;> omega

theorem fromHex_toHex (b : Bitmap) : Bitmap.fromHex b.toHex = .ok b := by
  have hfilter : b.toHex.filter (fun c => c ≠ 32) = b.toHex := by
    rw [List.filter_eq_self]
    intro c hc
    have := hexEncodeUpper_chars b.toBytes c hc
    simp
    omega
  have hbnd : ∀ x ∈ b.toBytes, x < 256 := by
    intro x hx
    unfold Bitmap.toBytes at hx
    simp only [List.mem_map] at hx
    obtain ⟨k, -, rfl⟩ := hx
    exact byteAt_lt b k
  have hlen : b.toHex.length = 2 * b.toBytes.length := hexEncodeUpper_length _
  unfold Bitmap.fromHex
  rw [hfilter]
  rw [if_neg (by
    rw [hlen, toBytes_length]
    split <;> omega)]
  rw [show b.toHex = hexEncodeUpper b.toBytes from rfl, hexDecode_encode b.toBytes hbnd]
  apply congrArg Except.ok
  ext i
  show (b.toBytes.getD (i.val / 8) 0 &&& 1 <<< (7 - i.val % 8) != 0) = b.bits i
  rw [toBytes_getD]
  have hi8 : i.val % 8 < 8 := Nat.mod_lt _ (by omega)
  have hand : ∀ x p : Nat, (x &&& (1 <<< p) != 0) = x.testBit p := by
    intro x p
    rw [Nat.one_shiftLeft, Nat.and_two_pow]
    cases h : x.testBit p <;> simp [h]
  by_cases hin : i.val / 8 < (if b.hasSecondary then 16 else 8)
  · rw [if_pos hin, hand]
    rw [testBit_byteAt_lt b _ _ (by omega)]
    have h77 : 7 - (7 - i.val % 8) = i.val % 8 := by omega
    rw [h77]
    have hpos : i.val / 8 * 8 + i.val % 8 = i.val := by
      have := Nat.div_add_mod i.val 8
      omega
    rw [hpos]
    unfold Bitmap.bitAt
    rw [dif_pos i.isLt]
  · rw [if_neg hin]
    have hsec : b.hasSecondary = false := by
      by_contra hh
      rw [Bool.not_eq_false] at hh
      rw [hh] at hin
      simp at hin
      omega
    rw [hsec] at hin
    simp at hin
    have hi64 : 64 ≤ i.val := by omega
    rw [(hasSecondary_false_iff b).mp hsec i hi64]
    simp

/-! ## Claim C3 -/

/-- C3 counterexample: the claim fails in both directions that tie the
secondary bytes to bit 1.  `Bitmap::new().set_bit(1)` serializes to 8 bytes
with bit 1 set although no DE in 65-128 was ever added; and `from_hex` of a
32-character bitmap with only bit 65 set yields a bitmap whose `to_hex` emits
the secondary bytes although bit 1 is clear. -/
theorem C3_bitmap_counterexample :
    (¬ ∀ b : Bitmap, b.toHex.length = 16 → b.isSet 1 = true →
        ∃ de, 65 ≤ de ∧ de ≤ 128 ∧ b.isSet de = true) ∧
    (¬ ∀ b : Bitmap, b.toHex.length = 32 → b.isSet 1 = true) ∧
    Bitmap.fromHex (strBytes "00000000000000008000000000000000") =
      .ok (Bitmap.mk (fun i => decide (i.val = 64))) := by
  refine ⟨?_, ?_, by decide⟩
  · intro h
    obtain ⟨de, h65, h128, hset⟩ := h (Bitmap.new.setBit 1) (by decide) (by decide)
    have hall : ∀ de < 129, 65 ≤ de → (Bitmap.new.setBit 1).isSet de = false := by decide
    rw [hall de (by omega) h65] at hset
    exact Bool.false_ne_true hset
  · intro h
    have := h (Bitmap.mk (fun i => decide (i.val = 64))) (by decide)
    rw [show (Bitmap.mk (fun i => decide (i.val = 64))).isSet 1 = false by decide] at this
    exact Bool.false_ne_true this

/-- C3 amended: `from_hex(to_hex(b)) == b` holds for every bitmap, and
setting any DE in 65-128 does force bit 1 set; but `to_hex` emits the
secondary 8 bytes exactly when some bit in 65-128 is set, independent of
bit 1 (so an 8-byte serialization carries no DE above 64, yet may carry
bit 1 without any DE in 65-128 having been added). -/
theorem C3_bitmap_roundtrip :
    (∀ b : Bitmap, Bitmap.fromHex b.toHex = .ok b) ∧
    (∀ (b : Bitmap) (de : Nat), 65 ≤ de → de ≤ 128 →
      (b.setBit de).isSet 1 = true) ∧
    (∀ b : Bitmap, b.toHex.length = if b.hasSecondary then 32 else 16) ∧
    (∀ b : Bitmap,
      b.hasSecondary = true ↔ ∃ de, 65 ≤ de ∧ de ≤ 128 ∧ b.isSet de = true) := by
  refine ⟨fromHex_toHex, ?_, ?_, ?_⟩
  · intro b de h65 h128
    unfold Bitmap.isSet Bitmap.setBit
    rw [dif_pos (by omega)]
    rw [if_pos (by omega), if_pos (by omega)]
    simp
  · intro b
    rw [Bitmap.toHex, hexEncodeUpper_length, toBytes_length]
    split <;> rfl
  · intro b
    constructor
    · intro h
      unfold Bitmap.hasSecondary at h
      rw [List.any_eq_true] at h
      obtain ⟨i, -, hi⟩ := h
      simp only [Bool.and_eq_true, decide_eq_true_eq] at hi
      refine ⟨i.val + 1, by omega, by omega, ?_⟩
      unfold Bitmap.isSet
      rw [dif_pos (by omega)]
      have : (⟨i.val + 1 - 1, by omega⟩ : Fin 128) = i := by
        ext
        simp
      rw [this]
      exact hi.2
    · rintro ⟨de, h65, h128, hset⟩
      unfold Bitmap.isSet at hset
      rw [dif_pos (by omega)] at hset
      unfold Bitmap.hasSecondary
      rw [List.any_eq_true]
      exact ⟨⟨de - 1, by omega⟩, List.mem_finRange _, by simp [hset]; omega⟩

/-- C3 witness: the round trip and the bit-1 rule applied at concrete
bitmaps. -/
theorem C3_bitmap_roundtrip_witness :
    Bitmap.fromHex (Bitmap.new.setBit 2).toHex = .ok (Bitmap.new.setBit 2) ∧
    ((Bitmap.new.setBit 2).setBit 65).isSet 1 = true := by
  exact ⟨C3_bitmap_roundtrip.1 (Bitmap.new.setBit 2),
    C3_bitmap_roundtrip.2.1 (Bitmap.new.setBit 2) 65 (by decide) (by decide)⟩

/-! ## TLV loop step lemmas -/

theorem parseBytesToVec_salvage (bytes : List Nat) (tag : RStr)
    (tagLen len lenBytes : Nat)
    (htag : TlvParser.parseTag bytes = .ok (tag, tagLen))
    (hne : bytes.drop tagLen ≠ [])
    (hlen : TlvParser.parseLength (bytes.drop tagLen) = .ok (len, lenBytes))
    (hshort : ((bytes.drop tagLen).drop lenBytes).length < len) :
    TlvParser.parseBytesToVec bytes =
      .ok [⟨tag, ((bytes.drop tagLen).drop lenBytes).length,
        (bytes.drop tagLen).drop lenBytes⟩] := by
  match bytes with
  | [] => exact absurd htag (by simp [TlvParser.parseTag])
  | first :: rest =>
    rw [TlvParser.parseBytesToVec]
    split
    · rename_i e heq
      rw [htag] at heq
      cases heq
    · rename_i tag' tagLen' heq
      rw [htag] at heq
      cases heq
      rw [if_neg hne]
      split
      · rename_i e heq2
        rw [hlen] at heq2
        cases heq2
      · rename_i len' lenBytes' heq2
        rw [hlen] at heq2
        cases heq2
        rw [if_pos hshort]

theorem parseBytesToVec_step (bytes : List Nat) (tag : RStr)
    (tagLen len lenBytes : Nat)
    (htag : TlvParser.parseTag bytes = .ok (tag, tagLen))
    (hne : bytes.drop tagLen ≠ [])
    (hlen : TlvParser.parseLength (bytes.drop tagLen) = .ok (len, lenBytes))
    (hlong : len ≤ ((bytes.drop tagLen).drop lenBytes).length) :
    TlvParser.parseBytesToVec bytes =
      (TlvParser.parseBytesToVec (((bytes.drop tagLen).drop lenBytes).drop len)).map
        (fun tail => ⟨tag, len, ((bytes.drop tagLen).drop lenBytes).take len⟩ :: tail) := by
  match bytes with
  | [] => exact absurd htag (by simp [TlvParser.parseTag])
  | first :: rest =>
    rw [TlvParser.parseBytesToVec]
    split
    · rename_i e heq
      rw [htag] at heq
      cases heq
    · rename_i tag' tagLen' heq
      rw [htag] at heq
      cases heq
      rw [if_neg hne]
      split
      · rename_i e heq2
        rw [hlen] at heq2
        cases heq2
      · rename_i len' lenBytes' heq2
        rw [hlen] at heq2
        cases heq2
        rw [if_neg (by omega)]
        cases hrec : TlvParser.parseBytesToVec
            ((((first :: rest).drop tagLen).drop lenBytes).drop len) <;>
          simp [hrec, Except.map]

theorem parseBytesToVec_nil : TlvParser.parseBytesToVec [] = .ok [] := by
  rw [TlvParser.parseBytesToVec]

/-! ## Claim C4 -/

/-- C4: when the declared BER-TLV value length exceeds the bytes remaining
after the length field, `parse_bytes_to_vec` does not fail: it emits a final
element whose value is exactly the remaining bytes, with `length` equal to
their count, stops parsing, and returns `Ok`.  The second conjunct is the
non-truncated step of the same loop, showing a well-formed element before the
truncation point just prepends itself, so the salvage result propagates to
`Ok` for the whole stream. -/
theorem C4_tlv_truncated_tail :
    (∀ (bytes : List Nat) (tag : RStr) (tagLen len lenBytes : Nat),
      TlvParser.parseTag bytes = .ok (tag, tagLen) →
      bytes.drop tagLen ≠ [] →
      TlvParser.parseLength (bytes.drop tagLen) = .ok (len, lenBytes) →
      ((bytes.drop tagLen).drop lenBytes).length < len →
      TlvParser.parseBytesToVec bytes =
        .ok [⟨tag, ((bytes.drop tagLen).drop lenBytes).length,
          (bytes.drop tagLen).drop lenBytes⟩]) ∧
    (∀ (bytes : List Nat) (tag : RStr) (tagLen len lenBytes : Nat),
      TlvParser.parseTag bytes = .ok (tag, tagLen) →
      bytes.drop tagLen ≠ [] →
      TlvParser.parseLength (bytes.drop tagLen) = .ok (len, lenBytes) →
      len ≤ ((bytes.drop tagLen).drop lenBytes).length →
      TlvParser.parseBytesToVec bytes =
        (TlvParser.parseBytesToVec (((bytes.drop tagLen).drop lenBytes).drop len)).map
          (fun tail => ⟨tag, len, ((bytes.drop tagLen).drop lenBytes).take len⟩ :: tail)) :=
  ⟨parseBytesToVec_salvage, parseBytesToVec_step⟩

/-- C4 witness: tag `5A` declaring length 5 with only two value bytes left
salvages those two bytes; a well-formed element parses and prepends. -/
theorem C4_tlv_truncated_tail_witness :
    TlvParser.parseBytesToVec [0x5A, 0x05, 0x01, 0x02] =
      .ok [⟨strBytes "5A", 2, [0x01, 0x02]⟩] ∧
    TlvParser.parseBytesToVec [0x5A, 0x01, 0xAB] =
      .ok [⟨strBytes "5A", 1, [0xAB]⟩] := by
  constructor
  · exact C4_tlv_truncated_tail.1 [0x5A, 0x05, 0x01, 0x02] (strBytes "5A") 1 5 1
      (by decide) (by decide) (by decide) (by decide)
  · have h := C4_tlv_truncated_tail.2 [0x5A, 0x01, 0xAB] (strBytes "5A") 1 1 1
      (by decide) (by decide) (by decide) (by decide)
    rw [h, show List.drop 1 (List.drop 1 (List.drop 1 [0x5A, 0x01, 0xAB])) = ([] : List Nat)
        from rfl, parseBytesToVec_nil]
    rfl

/-! ## STAN generator lemmas -/

theorem leftPad_digits (w : Nat) (s : List Nat) (h : ∀ c ∈ s, 48 ≤ c ∧ c ≤ 57) :
    ∀ c ∈ leftPad 48 w s, 48 ≤ c ∧ c ≤ 57 := by
  intro c hc
  rcases List.mem_append.mp hc with hc | hc
  · have := List.eq_of_mem_replicate hc
    omega
  · exact h c hc

theorem char_ofNat_isDigit (b : Nat) (h1 : 48 ≤ b) (h2 : b ≤ 57) :
    (Char.ofNat b).isDigit = true := by
  interval_cases b <;> decide

theorem format06_spec (n : Nat) (hn : n ≤ 999999) :
    (format06 n).length = 6 ∧ ∀ ch ∈ (format06 n).toList, ch.isDigit = true := by
  have hdl : (natDecimal n).length ≤ 6 :=
    natDecimal_length 6 n (by omega) (by omega)
  have hlen6 : (leftPad 48 6 (natDecimal n)).length = 6 := by
    rw [leftPad_length]
    omega
  constructor
  · show ((leftPad 48 6 (natDecimal n)).map Char.ofNat).length = 6
    rw [List.length_map, hlen6]
  · intro ch hch
    have hch' : ch ∈ (leftPad 48 6 (natDecimal n)).map Char.ofNat := hch
    obtain ⟨b, hb, rfl⟩ := List.mem_map.mp hch'
    have := leftPad_digits 6 (natDecimal n) (natDecimal_digits n) b hb
    exact char_ofNat_isDigit b this.1 this.2

theorem format06_one : format06 1 = "000001" := by
  have h1 : natDecimal 1 = [49] := by
    unfold natDecimal
    norm_num
    rw [natDecimalAux, natDecimalAux]
  rw [format06, h1]
  rfl

theorem format06_two : format06 2 = "000002" := by
  have h1 : natDecimal 2 = [50] := by
    unfold natDecimal
    norm_num
    rw [natDecimalAux, natDecimalAux]
  rw [format06, h1]
  rfl

theorem format06_three : format06 3 = "000003" := by
  have h1 : natDecimal 3 = [51] := by
    unfold natDecimal
    norm_num
    rw [natDecimalAux, natDecimalAux]
  rw [format06, h1]
  rfl

theorem stanNext_step (cur : Nat) (d : String) (hcur : cur + 1 ≤ 999999) :
    stanNext ⟨cur, d⟩ d = (format06 (cur + 1), ⟨cur + 1, d⟩) := by
  unfold stanNext
  rw [if_neg (show ¬((⟨cur, d⟩ : StanState).lastDate ≠ d) by simp)]
  dsimp only
  have hmod : (cur + 1) % 2 ^ 32 = cur + 1 := Nat.mod_eq_of_lt (by
    have h32 : (999999 : Nat) < 2 ^ 32 := by norm_num
    omega)
  rw [hmod, if_neg (by omega)]

/-! ## Claim C5 -/

/-- C5: on a fresh generator with an unchanged date the first three STANs are
`000001`, `000002`, `000003`; every result is a 6-digit all-digit string; a
counter at 999999 wraps: the increment exceeds 999999, the counter is stored
back as 1 (not 0) and the call returns `000001`; and a date change resets the
state so the call returns `000001` with the counter at 1. -/
theorem C5_stan_generator :
    (∀ d : String,
      stanNext (StanState.new d) d = ("000001", ⟨1, d⟩) ∧
      stanNext (⟨1, d⟩ : StanState) d = ("000002", ⟨2, d⟩) ∧
      stanNext (⟨2, d⟩ : StanState) d = ("000003", ⟨3, d⟩)) ∧
    (∀ (s : StanState) (d : String), (stanNext s d).1.length = 6 ∧
      ∀ ch ∈ (stanNext s d).1.toList, ch.isDigit = true) ∧
    (∀ (s : StanState) (d : String), s.current = 999999 → s.lastDate = d →
      stanNext s d = ("000001", ⟨1, d⟩)) ∧
    (∀ (s : StanState) (d : String), s.lastDate ≠ d →
      stanNext s d = ("000001", ⟨1, d⟩)) := by
  refine ⟨?_, ?_, ?_, ?_⟩
  · intro d
    refine ⟨?_, ?_, ?_⟩
    · rw [show StanState.new d = (⟨0, d⟩ : StanState) from rfl,
        stanNext_step 0 d (by omega), format06_one]
    · rw [stanNext_step 1 d (by omega), format06_two]
    · rw [stanNext_step 2 d (by omega), format06_three]
  · intro s d
    unfold stanNext
    set s' := if s.lastDate ≠ d then ({ current := 0, lastDate := d } : StanState) else s
      with hs'
    by_cases h : (s'.current + 1) % 2 ^ 32 > 999999
    · rw [if_pos h]
      exact format06_spec 1 (by omega)
    · rw [if_neg h]
      exact format06_spec _ (by omega)
  · intro s d h999 hdate
    obtain ⟨cur, last⟩ := s
    simp only at h999 hdate
    subst h999 hdate
    unfold stanNext
    rw [if_neg (show ¬((⟨999999, last⟩ : StanState).lastDate ≠ last) by simp)]
    dsimp only
    rw [show (999999 + 1) % 2 ^ 32 = 1000000 by norm_num]
    rw [if_pos (by omega), format06_one]
  · intro s d hdate
    unfold stanNext
    rw [if_pos hdate]
    dsimp only
    rw [show (0 + 1) % 2 ^ 32 = 1 by norm_num]
    rw [if_neg (by omega), format06_one]

/-- C5 witness: the wrap and reset conjuncts at concrete states. -/
theorem C5_stan_generator_witness :
    stanNext (⟨999999, "20251012"⟩ : StanState) "20251012" =
      ("000001", ⟨1, "20251012"⟩) ∧
    stanNext (⟨5, "20251011"⟩ : StanState) "20251012" =
      ("000001", ⟨1, "20251012"⟩) := by
  exact ⟨C5_stan_generator.2.2.1 ⟨999999, "20251012"⟩ "20251012" rfl rfl,
    C5_stan_generator.2.2.2 ⟨5, "20251011"⟩ "20251012" (by decide)⟩

/-! ## Claim C6 -/

/-- C6: DE39 `"00"` parses to `(Approved, Some Approved)`; every other code
of the closed enumeration parses to `(Declined, Some code)`; an absent or
unrecognized DE39 parses to `(Failed, None)`; the enumeration is exactly the
thirteen non-approved codes plus `"00"`; and every non-approved code maps to
`Declined`. -/
theorem C6_response_code_mapping :
    (∀ msg : Iso8583Message, msg.getField 39 = some "00" →
      ResponseHandler.parseResponse msg = (.approved, some .approved)) ∧
    (∀ (msg : Iso8583Message) (s : String) (c : ResponseCode),
      msg.getField 39 = some s → ResponseCode.fromStr s = some c →
      c ≠ .approved →
      ResponseHandler.parseResponse msg = (.declined, some c)) ∧
    (∀ msg : Iso8583Message, msg.getField 39 = none →
      ResponseHandler.parseResponse msg = (.failed, none)) ∧
    (∀ (msg : Iso8583Message) (s : String), msg.getField 39 = some s →
      ResponseCode.fromStr s = none →
      ResponseHandler.parseResponse msg = (.failed, none)) ∧
    (∀ (s : String) (c : ResponseCode), ResponseCode.fromStr s = some c →
      s ∈ (["00", "05", "12", "13", "14", "30", "51", "54", "55", "57", "58",
        "61", "91", "96"] : List String)) ∧
    (∀ c : ResponseCode, c ≠ .approved → c.toTransactionState = .declined) := by
  refine ⟨?_, ?_, ?_, ?_, ?_, ?_⟩
  · intro msg h
    unfold ResponseHandler.parseResponse
    rw [h]
    rfl
  · intro msg s c h1 h2 hne
    unfold ResponseHandler.parseResponse
    rw [h1]
    simp only [h2]
    cases c
    · exact absurd rfl hne
    all_goals rfl
  · intro msg h
    unfold ResponseHandler.parseResponse
    rw [h]
  · intro msg s h1 h2
    unfold ResponseHandler.parseResponse
    rw [h1]
    simp only [h2]
  · intro s c h
    unfold ResponseCode.fromStr at h
    split at h <;> simp_all
  · intro c hne
    cases c
    · exact absurd rfl hne
    all_goals rfl

/-- C6 witness: the four mapping conjuncts at concrete messages. -/
theorem C6_response_code_mapping_witness :
    ResponseHandler.parseResponse ((Iso8583Message.new "0210").setField 39 "00") =
      (.approved, some .approved) ∧
    ResponseHandler.parseResponse ((Iso8583Message.new "0210").setField 39 "51") =
      (.declined, some .insufficientFunds) ∧
    ResponseHandler.parseResponse ((Iso8583Message.new "0210").setField 39 "ZZ") =
      (.failed, none) ∧
    ResponseHandler.parseResponse (Iso8583Message.new "0210") = (.failed, none) := by
  refine ⟨?_, ?_, ?_, ?_⟩
  · exact C6_response_code_mapping.1 _ rfl
  · exact C6_response_code_mapping.2.1 _ "51" _ rfl rfl (by decide)
  · exact C6_response_code_mapping.2.2.2.1 _ "ZZ" rfl rfl
  · exact C6_response_code_mapping.2.2.1 _ rfl

/-! ## Claim C7 -/

/-- C7 counterexample: `manual_reverse` performs no state gating at all — a
found transaction in state `APPROVED` (or `REVERSED`) is happily given a
reversal message instead of `TransactionAlreadyCompleted` /
`AlreadyReversed`, refuting the claim for "requesting a reversal" in
general. -/
theorem C7_manual_reverse_counterexample :
    (manualReverse (some { emptyTx with tr_type := some "APPROVED" })
      .customerCancellation "000099" ⟨"1012120000", "120000", "1012"⟩).isOk = true ∧
    (manualReverse (some { emptyTx with tr_type := some "REVERSED" })
      .other "000099" ⟨"1012120000", "120000", "1012"⟩).isOk = true := by
  exact ⟨rfl, rfl⟩

/-- C7 amended: the state gate exists only on the automatic timeout path.
`auto_reverse_timeout` on a found original returns
`TransactionAlreadyCompleted` for state `Approved`, `AlreadyReversed` for
state `Reversed`, and otherwise proceeds to `create_reversal` (which always
produces a message); in the two error cases the result is only the error
value — no message is built and nothing is written.  `manual_reverse`, by
contrast, always proceeds to `create_reversal` on a found original. -/
theorem C7_reversal_gate :
    (∀ (find : Option Iso8583Transaction) (tx : Iso8583Transaction)
        (stan : String) (now : LocalNow) (t : String),
      find = some tx → tx.tr_type = some t →
      TransactionState.fromStr t = some .approved →
      autoReverseTimeout find stan now = .error .transactionAlreadyCompleted) ∧
    (∀ (find : Option Iso8583Transaction) (tx : Iso8583Transaction)
        (stan : String) (now : LocalNow) (t : String),
      find = some tx → tx.tr_type = some t →
      TransactionState.fromStr t = some .reversed →
      autoReverseTimeout find stan now = .error .alreadyReversed) ∧
    (∀ (find : Option Iso8583Transaction) (tx : Iso8583Transaction)
        (stan : String) (now : LocalNow),
      find = some tx →
      (∀ t, tx.tr_type = some t → TransactionState.fromStr t ≠ some .approved ∧
        TransactionState.fromStr t ≠ some .reversed) →
      autoReverseTimeout find stan now = createReversal tx .timeout stan now ∧
      (autoReverseTimeout find stan now).isOk = true) ∧
    (∀ (find : Option Iso8583Transaction) (tx : Iso8583Transaction)
        (reason : ReversalReason) (stan : String) (now : LocalNow),
      find = some tx →
      manualReverse find reason stan now = createReversal tx reason stan now) := by
  refine ⟨?_, ?_, ?_, ?_⟩
  · intro find tx stan now t hfind htr happr
    subst hfind
    unfold autoReverseTimeout
    simp only [htr, happr]
  · intro find tx stan now t hfind htr hrev
    subst hfind
    unfold autoReverseTimeout
    simp only [htr, hrev]
  · intro find tx stan now hfind hother
    subst hfind
    have hgate : autoReverseTimeout (some tx) stan now =
        createReversal tx .timeout stan now := by
      unfold autoReverseTimeout
      cases htr : tx.tr_type with
      | none => simp only [htr]
      | some t =>
        obtain ⟨hna, hnr⟩ := hother t htr
        simp only [htr]
    exact ⟨hgate, by rw [hgate]; rfl⟩
  · intro find tx reason stan now hfind
    subst hfind
    rfl

/-- C7 witness: the gate applied at concrete found transactions. -/
theorem C7_reversal_gate_witness :
    autoReverseTimeout (some { emptyTx with tr_type := some "APPROVED" })
      "000099" ⟨"1012120000", "120000", "1012"⟩ =
      .error .transactionAlreadyCompleted ∧
    autoReverseTimeout (some { emptyTx with tr_type := some "REVERSED" })
      "000099" ⟨"1012120000", "120000", "1012"⟩ = .error .alreadyReversed ∧
    (autoReverseTimeout (some { emptyTx with tr_type := some "SENT" })
      "000099" ⟨"1012120000", "120000", "1012"⟩).isOk = true := by
  refine ⟨?_, ?_, ?_⟩
  · exact C7_reversal_gate.1 _ _ "000099" _ "APPROVED" rfl rfl rfl
  · exact C7_reversal_gate.2.1 _ _ "000099" _ "REVERSED" rfl rfl rfl
  · exact (C7_reversal_gate.2.2.1 _ _ "000099" _ rfl (by
      intro t ht
      cases ht
      exact ⟨by decide, by decide⟩)).2

/-! ## Message-map lemmas -/

theorem getField_setField_same (m : Iso8583Message) (de : Nat) (v : String)
    (h : 1 ≤ de ∧ de ≤ 128) : (m.setField de v).getField de = some v := by
  unfold Iso8583Message.setField Iso8583Message.getField
  rw [if_pos h]
  simp

theorem getField_setField_ne (m : Iso8583Message) (de de' : Nat) (v : String)
    (h : de' ≠ de) : (m.setField de v).getField de' = m.getField de' := by
  unfold Iso8583Message.setField Iso8583Message.getField
  split
  · simp [h]
  · rfl

theorem getField_setOpt_ne (m : Iso8583Message) (de de' : Nat) (o : Option String)
    (h : de' ≠ de) : (setOpt m de o).getField de' = m.getField de' := by
  cases o with
  | none => rfl
  | some v => exact getField_setField_ne m de de' v h

theorem mti_setField (m : Iso8583Message) (de : Nat) (v : String) :
    (m.setField de v).mti = m.mti := by
  unfold Iso8583Message.setField
  split <;> rfl

theorem mti_setOpt (m : Iso8583Message) (de : Nat) (o : Option String) :
    (setOpt m de o).mti = m.mti := by
  cases o with
  | none => rfl
  | some v => exact mti_setField m de v

/-! ## Claim C8 -/

/-- C8: every message built by `create_reversal` has MTI `0400`; its DE90 is
the concatenation of the original's DE13, DE12 and unique transaction number
(in that order, with the source's `unwrap_or` defaults when DE13/DE12 are
missing); and PAN, processing code, amount, terminal ID, merchant ID and
currency are copied from the original whenever present. -/
theorem C8_create_reversal :
    ∀ (tx : Iso8583Transaction) (reason : ReversalReason) (stan : String)
      (now : LocalNow) (msg : Iso8583Message),
      createReversal tx reason stan now = .ok msg →
      msg.mti = "0400" ∧
      msg.getField 90 = some (tx.field_013.getD "0000" ++ tx.field_012.getD "000000"
        ++ tx.tr_uniq_no) ∧
      (∀ d t, tx.field_013 = some d → tx.field_012 = some t →
        msg.getField 90 = some (d ++ t ++ tx.tr_uniq_no)) ∧
      (∀ p, tx.field_002 = some p → msg.getField 2 = some p) ∧
      (∀ p, tx.field_003 = some p → msg.getField 3 = some p) ∧
      (∀ p, tx.field_004 = some p → msg.getField 4 = some p) ∧
      (∀ p, tx.field_041 = some p → msg.getField 41 = some p) ∧
      (∀ p, tx.field_042 = some p → msg.getField 42 = some p) ∧
      (∀ p, tx.field_049 = some p → msg.getField 49 = some p) := by
  intro tx reason stan now msg hok
  simp only [createReversal] at hok
  cases hok
  refine ⟨?_, ?_, ?_, ?_, ?_, ?_, ?_, ?_, ?_⟩
  · simp only [mti_setField, mti_setOpt]
    rfl
  · rw [getField_setField_ne _ _ _ _ (by omega),
      getField_setField_same _ _ _ (by omega)]
  · intro d t hd ht
    rw [getField_setField_ne _ _ _ _ (by omega),
      getField_setField_same _ _ _ (by omega), hd, ht]
    rfl
  · intro p hp
    rw [getField_setField_ne _ _ _ _ (by omega),
      getField_setField_ne _ _ _ _ (by omega),
      getField_setOpt_ne _ _ _ _ (by omega),
      getField_setOpt_ne _ _ _ _ (by omega),
      getField_setOpt_ne _ _ _ _ (by omega),
      getField_setOpt_ne _ _ _ _ (by omega),
      getField_setOpt_ne _ _ _ _ (by omega), hp]
    exact getField_setField_same _ _ _ (by omega)
  · intro p hp
    rw [getField_setField_ne _ _ _ _ (by omega),
      getField_setField_ne _ _ _ _ (by omega),
      getField_setOpt_ne _ _ _ _ (by omega),
      getField_setOpt_ne _ _ _ _ (by omega),
      getField_setOpt_ne _ _ _ _ (by omega),
      getField_setOpt_ne _ _ _ _ (by omega), hp]
    exact getField_setField_same _ _ _ (by omega)
  · intro p hp
    rw [getField_setField_ne _ _ _ _ (by omega),
      getField_setField_ne _ _ _ _ (by omega),
      getField_setOpt_ne _ _ _ _ (by omega),
      getField_setOpt_ne _ _ _ _ (by omega),
      getField_setOpt_ne _ _ _ _ (by omega), hp]
    exact getField_setField_same _ _ _ (by omega)
  · intro p hp
    rw [getField_setField_ne _ _ _ _ (by omega),
      getField_setField_ne _ _ _ _ (by omega),
      getField_setOpt_ne _ _ _ _ (by omega),
      getField_setOpt_ne _ _ _ _ (by omega), hp]
    exact getField_setField_same _ _ _ (by omega)
  · intro p hp
    rw [getField_setField_ne _ _ _ _ (by omega),
      getField_setField_ne _ _ _ _ (by omega),
      getField_setOpt_ne _ _ _ _ (by omega), hp]
    exact getField_setField_same _ _ _ (by omega)
  · intro p hp
    rw [getField_setField_ne _ _ _ _ (by omega),
      getField_setField_ne _ _ _ _ (by omega), hp]
    exact getField_setField_same _ _ _ (by omega)

/-- C8 witness: `create_reversal` applied to a concrete original with DE13,
DE12 and the copied fields present produces exactly the claimed message. -/
theorem C8_create_reversal_witness :
    createReversal
        { emptyTx with
          field_002 := some "4111111111111111", field_003 := some "000000",
          field_004 := some "000000100000", field_012 := some "120000",
          field_013 := some "1012", field_041 := some "TERM0001",
          field_042 := some "MERCHANT001", field_049 := some "704" }
        .timeout "000002" ⟨"1012120005", "120005", "1012"⟩ =
      .ok (Iso8583Message.new "0400" |>.setField 11 "000002" |>.setField 7 "1012120005"
      |>.setField 12 "120005" |>.setField 13 "1012"
      |>.setField 2 "4111111111111111" |>.setField 3 "000000"
      |>.setField 4 "000000100000" |>.setField 41 "TERM0001"
      |>.setField 42 "MERCHANT001" |>.setField 49 "704"
      |>.setField 90 ("1012" ++ "120000" ++ "000042") |>.setField 56 "68") ∧
    (Iso8583Message.new "0400" |>.setField 11 "000002" |>.setField 7 "1012120005"
      |>.setField 12 "120005" |>.setField 13 "1012"
      |>.setField 2 "4111111111111111" |>.setField 3 "000000"
      |>.setField 4 "000000100000" |>.setField 41 "TERM0001"
      |>.setField 42 "MERCHANT001" |>.setField 49 "704"
      |>.setField 90 ("1012" ++ "120000" ++ "000042") |>.setField 56 "68").mti = "0400" ∧
    (Iso8583Message.new "0400" |>.setField 11 "000002" |>.setField 7 "1012120005"
      |>.setField 12 "120005" |>.setField 13 "1012"
      |>.setField 2 "4111111111111111" |>.setField 3 "000000"
      |>.setField 4 "000000100000" |>.setField 41 "TERM0001"
      |>.setField 42 "MERCHANT001" |>.setField 49 "704"
      |>.setField 90 ("1012" ++ "120000" ++ "000042") |>.setField 56 "68").getField 90 = some ("1012" ++ "120000" ++ "000042") ∧
    (Iso8583Message.new "0400" |>.setField 11 "000002" |>.setField 7 "1012120005"
      |>.setField 12 "120005" |>.setField 13 "1012"
      |>.setField 2 "4111111111111111" |>.setField 3 "000000"
      |>.setField 4 "000000100000" |>.setField 41 "TERM0001"
      |>.setField 42 "MERCHANT001" |>.setField 49 "704"
      |>.setField 90 ("1012" ++ "120000" ++ "000042") |>.setField 56 "68").getField 2 = some "4111111111111111" := by
  have hok : createReversal
      { emptyTx with
          field_002 := some "4111111111111111", field_003 := some "000000",
          field_004 := some "000000100000", field_012 := some "120000",
          field_013 := some "1012", field_041 := some "TERM0001",
          field_042 := some "MERCHANT001", field_049 := some "704" }
      .timeout "000002" ⟨"1012120005", "120005", "1012"⟩ =
      .ok (Iso8583Message.new "0400" |>.setField 11 "000002" |>.setField 7 "1012120005"
      |>.setField 12 "120005" |>.setField 13 "1012"
      |>.setField 2 "4111111111111111" |>.setField 3 "000000"
      |>.setField 4 "000000100000" |>.setField 41 "TERM0001"
      |>.setField 42 "MERCHANT001" |>.setField 49 "704"
      |>.setField 90 ("1012" ++ "120000" ++ "000042") |>.setField 56 "68") := rfl
  obtain ⟨h1, h2, -, h4, -, -, -, -, -⟩ :=
    C8_create_reversal _ .timeout "000002" _ _ hok
  exact ⟨hok, h1, h2, h4 _ rfl⟩

/-! ## Claim C9 -/

/-- The field-map range invariant preserved by `set_field` and
`remove_field`. -/
theorem applyOps_invariant (ops : List MsgOp) :
    ∀ m : Iso8583Message,
      (∀ de, m.fields de ≠ none → 1 ≤ de ∧ de ≤ 128) →
      ∀ de, (applyOps m ops).fields de ≠ none → 1 ≤ de ∧ de ≤ 128 := by
  induction ops with
  | nil => intro m hm de h; exact hm de h
  | cons op rest ih =>
    intro m hm de h
    cases op with
    | set de' v =>
      refine ih (m.setField de' v) ?_ de h
      intro k hk
      unfold Iso8583Message.setField at hk
      split at hk
      · rename_i hrange
        simp only at hk
        by_cases hke : k = de'
        · omega
        · rw [if_neg hke] at hk
          exact hm k hk
      · exact hm k hk
    | remove de' =>
      refine ih (m.removeField de') ?_ de h
      intro k hk
      unfold Iso8583Message.removeField at hk
      simp only at hk
      by_cases hke : k = de'
      · rw [if_pos hke] at hk
        exact absurd rfl hk
      · rw [if_neg hke] at hk
        exact hm k hk

/-- C9: `set_field` silently ignores any DE outside 1-128 (the message is
returned unchanged), so after any sequence of `set_field` / `remove_field`
operations starting from a fresh message every present key lies in 1..=128;
and `Bitmap::set_bit` / `clear_bit` are no-ops outside 1-128 while `is_set`
returns `false` there. -/
theorem C9_field_range_invariant :
    (∀ (m : Iso8583Message) (de : Nat) (v : String), ¬(1 ≤ de ∧ de ≤ 128) →
      m.setField de v = m) ∧
    (∀ (ops : List MsgOp) (mti : String) (de : Nat),
      (applyOps (Iso8583Message.new mti) ops).fields de ≠ none →
      1 ≤ de ∧ de ≤ 128) ∧
    (∀ (b : Bitmap) (de : Nat), ¬(1 ≤ de ∧ de ≤ 128) →
      b.setBit de = b ∧ b.clearBit de = b ∧ b.isSet de = false) := by
  refine ⟨?_, ?_, ?_⟩
  · intro m de v h
    unfold Iso8583Message.setField
    rw [if_neg h]
  · intro ops mti de h
    refine applyOps_invariant ops (Iso8583Message.new mti) ?_ de h
    intro k hk
    exact absurd rfl hk
  · intro b de h
    refine ⟨?_, ?_, ?_⟩
    · unfold Bitmap.setBit
      rw [if_neg h]
    · unfold Bitmap.clearBit
      rw [if_neg h]
    · unfold Bitmap.isSet
      rw [dif_neg h]

/-- C9 witness: out-of-range operations at DE 0 and DE 129 on concrete
values. -/
theorem C9_field_range_invariant_witness :
    (Iso8583Message.new "0200").setField 0 "x" = Iso8583Message.new "0200" ∧
    (1 ≤ 11 ∧ 11 ≤ 128) ∧
    Bitmap.new.setBit 129 = Bitmap.new ∧ Bitmap.new.isSet 0 = false := by
  refine ⟨?_, ?_, ?_, ?_⟩
  · exact C9_field_range_invariant.1 _ 0 "x" (by omega)
  · exact C9_field_range_invariant.2.1 [.set 11 "000001"] "0200" 11 (by
      show (applyOps (Iso8583Message.new "0200") [.set 11 "000001"]).fields 11 ≠ none
      simp [applyOps, Iso8583Message.setField, Iso8583Message.new])
  · exact (C9_field_range_invariant.2.2 Bitmap.new 129 (by omega)).1
  · exact (C9_field_range_invariant.2.2 Bitmap.new 0 (by omega)).2.2

/-! ## TLV map lemmas -/

theorem tlvMapOf_append (es : List TlvElement) (e : TlvElement) (t : RStr) :
    tlvMapOf (es ++ [e]) t = if t = e.tag then some e else tlvMapOf es t := by
  unfold tlvMapOf
  rw [List.foldl_append]
  rfl

theorem tlvMapOf_getLast (elems : List TlvElement) (t : RStr) :
    tlvMapOf elems t = (elems.filter (fun e => e.tag == t)).getLast? := by
  induction elems using List.reverseRecOn with
  | nil => rfl
  | append_singleton es e ih =>
    rw [tlvMapOf_append, List.filter_append]
    by_cases h : e.tag = t
    · rw [if_pos h.symm]
      rw [show List.filter (fun e => e.tag == t) [e] = [e] by simp [h]]
      rw [List.getLast?_concat]
    · rw [if_neg (fun hh => h hh.symm)]
      rw [show List.filter (fun e => e.tag == t) [e] = [] by simp [h]]
      rw [List.append_nil, ih]

/-! ## Claim C10 -/

/-- C10: in the `ParsedEmvData` built by `from_de55`, `ordered_elements` is
the full parse (every occurrence, in input order), while the tag-keyed map —
and hence every typed accessor — holds, for each tag, the LAST element of
`ordered_elements` bearing that tag, because `HashMap::insert` overwrites
earlier occurrences. -/
theorem C10_duplicate_tags :
    ∀ (hex : RStr) (d : ParsedEmvData), ParsedEmvData.fromDe55 hex = .ok d →
      (∀ t, d.elements t =
        (d.orderedElements.filter (fun e => e.tag == t)).getLast?) ∧
      (∀ t, d.getValue t =
        ((d.orderedElements.filter (fun e => e.tag == t)).getLast?).map
          TlvElement.valueHex) ∧
      d.getPan = ((d.orderedElements.filter
        (fun e => e.tag == strBytes "5A")).getLast?).map TlvElement.valueBcd ∧
      d.getExpiryDate = ((d.orderedElements.filter
        (fun e => e.tag == strBytes "5F24")).getLast?).map TlvElement.valueBcd := by
  intro hex d hok
  unfold ParsedEmvData.fromDe55 at hok
  cases hv : TlvParser.parseToVec hex with
  | error e =>
    rw [hv] at hok
    cases hok
  | ok ordered =>
    rw [hv] at hok
    unfold TlvParser.parse at hok
    rw [hv] at hok
    cases hok
    refine ⟨fun t => tlvMapOf_getLast ordered t, fun t => ?_, ?_, ?_⟩
    · unfold ParsedEmvData.getValue
      rw [show (ParsedEmvData.mk (tlvMapOf ordered) ordered).elements = tlvMapOf ordered
        from rfl, tlvMapOf_getLast]
    · unfold ParsedEmvData.getPan
      rw [show (ParsedEmvData.mk (tlvMapOf ordered) ordered).elements = tlvMapOf ordered
        from rfl, tlvMapOf_getLast]
    · unfold ParsedEmvData.getExpiryDate
      rw [show (ParsedEmvData.mk (tlvMapOf ordered) ordered).elements = tlvMapOf ordered
        from rfl, tlvMapOf_getLast]

/-- C10 witness: a DE55 stream with tag `5A` occurring twice keeps both
occurrences in order, and `get_pan` sees the second one (`22`). -/
theorem C10_duplicate_tags_witness :
    ParsedEmvData.fromDe55 (strBytes "5A01115A0122") =
      .ok ⟨tlvMapOf [⟨strBytes "5A", 1, [0x11]⟩, ⟨strBytes "5A", 1, [0x22]⟩],
        [⟨strBytes "5A", 1, [0x11]⟩, ⟨strBytes "5A", 1, [0x22]⟩]⟩ ∧
    (ParsedEmvData.mk
      (tlvMapOf [⟨strBytes "5A", 1, [0x11]⟩, ⟨strBytes "5A", 1, [0x22]⟩])
      [⟨strBytes "5A", 1, [0x11]⟩, ⟨strBytes "5A", 1, [0x22]⟩]).getPan =
      some (strBytes "22") := by
  have hbytes : TlvParser.hexToBytes (strBytes "5A01115A0122") =
      .ok [0x5A, 0x01, 0x11, 0x5A, 0x01, 0x22] := by decide
  have hs1 := parseBytesToVec_step [0x5A, 0x01, 0x11, 0x5A, 0x01, 0x22]
    (strBytes "5A") 1 1 1 (by decide) (by decide) (by decide) (by decide)
  have hs2 := parseBytesToVec_step [0x5A, 0x01, 0x22]
    (strBytes "5A") 1 1 1 (by decide) (by decide) (by decide) (by decide)
  have hvec : TlvParser.parseBytesToVec [0x5A, 0x01, 0x11, 0x5A, 0x01, 0x22] =
      .ok [⟨strBytes "5A", 1, [0x11]⟩, ⟨strBytes "5A", 1, [0x22]⟩] := by
    rw [hs1]
    rw [show List.drop 1 (List.drop 1
      (List.drop 1 [0x5A, 0x01, 0x11, 0x5A, 0x01, 0x22])) = [0x5A, 0x01, 0x22]
      from rfl]
    rw [hs2]
    rw [show List.drop 1 (List.drop 1 (List.drop 1 [0x5A, 0x01, 0x22])) =
      ([] : List Nat) from rfl, parseBytesToVec_nil]
    rfl
  have hde : ParsedEmvData.fromDe55 (strBytes "5A01115A0122") =
      .ok ⟨tlvMapOf [⟨strBytes "5A", 1, [0x11]⟩, ⟨strBytes "5A", 1, [0x22]⟩],
        [⟨strBytes "5A", 1, [0x11]⟩, ⟨strBytes "5A", 1, [0x22]⟩]⟩ := by
    unfold ParsedEmvData.fromDe55 TlvParser.parse TlvParser.parseToVec
    rw [hbytes]
    simp only [hvec]
  refine ⟨hde, ?_⟩
  rw [(C10_duplicate_tags (strBytes "5A01115A0122") _ hde).2.2.1]
  decide

end BankComm
